import Mathlib

/-!
Verification of the extraction-and-relevance pipeline of the trackevent
repository against its natural-language specification.

The Python sources are shallowly embedded:
  * strings are `List Char`; Python `str.lower`, `str.strip`, `in`,
    `startswith`, slices and `re` scans are modelled by executable functions
    over `List Char` (ASCII case mapping, as all data the filters inspect is
    ASCII);
  * external collaborators (the LLM completion call, `json.loads`,
    `dateutil.parser.parse`, the network fetch) are oracle parameters:
    arbitrary functions standing for the collaborator's response, as the
    spec treats them as black boxes;
  * `float` relevance scores are modelled as `ℚ` (the comparisons and the
    `* 1.5` weighting performed by the code are exact in both);
  * `datetime` values are modelled as `Int` (seconds); `timedelta(days=d)`
    is `d * 86400`; `datetime.max` is the constant `datetimeMax`;
  * scanners that consume a variable number of characters per step take a
    fuel argument (always instantiated with the input length, which is
    sufficient since every step consumes at least one character), keeping
    every definition structurally recursive and kernel-computable.
-/

namespace TrackEvent

/-- Strings of the embedded Python code are lists of characters. -/
abbrev Str := List Char

/-! ### Basic character and string utilities (Python built-ins) -/

/-- ASCII lower-case letter test (the regex class `[a-z]`). -/
def isLowerAlpha (c : Char) : Bool := 'a' ≤ c && c ≤ 'z'

/-- ASCII upper-case letter test (the regex class `[A-Z]`). -/
def isUpperAlpha (c : Char) : Bool := 'A' ≤ c && c ≤ 'Z'

/-- ASCII digit test (the regex class `[0-9]`). -/
def isDigitCh (c : Char) : Bool := '0' ≤ c && c ≤ '9'

/-- ASCII letter test (Python's notion of a cased character, restricted to
ASCII, which is all the scanned identifiers contain). -/
def isAlphaCh (c : Char) : Bool := isLowerAlpha c || isUpperAlpha c

/-- The regex character class `[a-zA-Z0-9_-]` used for Luma URL identifiers. -/
def isUrlChar (c : Char) : Bool :=
  isLowerAlpha c || isUpperAlpha c || isDigitCh c || c = '_' || c = '-'

/-- ASCII case folding of one character (Python `str.lower`, ASCII range). -/
def lowerChar (c : Char) : Char :=
  if isUpperAlpha c then Char.ofNat (c.toNat + 32) else c

/-- Python `str.lower` (ASCII range). -/
def lowerStr (s : Str) : Str := s.map lowerChar

/-- Python whitespace (the characters `str.strip` and the regex `\s` treat as
blank; ASCII range). -/
def isPySpace (c : Char) : Bool :=
  c = ' ' || c = '\t' || c = '\n' || c = '\r' || c = '\x0b' || c = '\x0c'

/-- Python `str.strip()`: drop whitespace from both ends. -/
def pyStrip (s : Str) : Str :=
  ((s.dropWhile isPySpace).reverse.dropWhile isPySpace).reverse

/-- Python `str.strip(ch)` for a single character: drop it from both ends. -/
def stripChar (ch : Char) (s : Str) : Str :=
  ((s.dropWhile (· = ch)).reverse.dropWhile (· = ch)).reverse

/-- Python `s.split(ch)[0]`: the prefix before the first occurrence. -/
def takeUntilChar (ch : Char) (s : Str) : Str := s.takeWhile (· ≠ ch)

/-- Python `pat in s` (substring test). -/
def isSub (pat s : Str) : Bool :=
  match s with
  | [] => pat.isEmpty
  | _ :: rest => pat.isPrefixOf s || isSub pat rest

/-- Python `s.startswith(p)`. -/
def startsWith (p s : Str) : Bool := p.isPrefixOf s

/-- Python `s.startswith((p₁, …, pₙ))`. -/
def startsWithAny (ps : List Str) (s : Str) : Bool := ps.any (·.isPrefixOf s)

/-- Python `islower()` restricted to ASCII: at least one cased character and
no upper-case cased character. -/
def pyIslower (s : Str) : Bool := s.any isAlphaCh && !s.any isUpperAlpha

/-- The regex `re.sub(r"\s+", " ", s)`: collapse every whitespace run to a
single space (the run's last character is kept as the single `' '`). -/
def collapseWs : Str → Str
  | [] => []
  | c :: rest =>
    if isPySpace c then
      match rest with
      | [] => [' ']
      | d :: _ => if isPySpace d then collapseWs rest else ' ' :: collapseWs rest
    else c :: collapseWs rest

/-- Auxiliary for `pyDedup`: keep elements not seen before. -/
def dedupFirstAux (seen : List Str) : List Str → List Str
  | [] => []
  | x :: xs =>
    if x ∈ seen then dedupFirstAux seen xs else x :: dedupFirstAux (x :: seen) xs

/-- Python `list(dict.fromkeys(l))`: deduplicate keeping the first occurrence
of each element, in first-seen order. -/
def pyDedup (l : List Str) : List Str := dedupFirstAux [] l

/-- Python `sorted` on a list of strings: stable sort by the lexicographic
code-point order (which is `≤` on `List Char`). -/
def pySortedStr (l : List Str) : List Str := l.insertionSort (· ≤ ·)

/-! ### src/models.py — the pydantic data model -/

/-- models.Venue. -/
structure Venue where
  raw : Option Str := none
  is_online : Bool := false
deriving DecidableEq

/-- models.Organizer. -/
structure Organizer where
  name : Option Str := none
deriving DecidableEq

/-- models.Event: the final entity assembled by the pipeline.  Only the
fields the embedded code reads or writes are carried (`end_at` and
`timezone` are never set nor read by the pipeline). -/
structure Event where
  url : Str
  title : Str
  start_at : Option Int := none
  venue : Venue := ⟨none, false⟩
  organizer : Organizer := ⟨none⟩
  description : Option Str := none
  tags : List Str := []
  relevance_score : ℚ := 0
  matched_keywords : List Str := []
  relevance_reason : Str := []
deriving DecidableEq

/-! ### src/judgment_topics.py — keyword hits -/

/-- judgment_topics.keyword_hits: lower-case the text, keep the nonempty
keywords occurring in it as substrings, and return `sorted(set(hits))`.
The Python keyword set is modelled as a list; since the result is the
sorted deduplicate of the hits, the iteration order of the set does not
affect it. -/
def keyword_hits (text : Str) (keywords : List Str) : List Str :=
  pySortedStr (pyDedup (keywords.filter fun k => !k.isEmpty && isSub k (lowerStr text)))

/-! ### src/filtering.py -/

/-- filtering.parse_datetime_loose.  `dateutil.parser.parse(s, fuzzy=True)`
is an external collaborator, modelled by the oracle `pd` returning the
parsed time (seconds) or `none` on a parse exception. -/
def parse_datetime_loose (pd : Str → Option Int) (s : Str) : Option Int :=
  if s.isEmpty then none else pd (pyStrip (collapseWs s))

/-- filtering.is_within_days: `now <= start_at <= now + timedelta(days=days)`,
and `False` when `start_at` is `None`.  `now` is passed explicitly by the
pipeline. -/
def is_within_days (start_at : Option Int) (days : Int) (now : Int) : Bool :=
  match start_at with
  | none => false
  | some t => now ≤ t && t ≤ now + days * 86400

/-- filtering.looks_like_sf_bay: lower-case the text; online/virtual markers
pass unconditionally, otherwise some configured geography term must occur as
a substring. -/
def looks_like_sf_bay (text : Str) (sf_terms : List Str) : Bool :=
  let t := lowerStr text
  if isSub "online".data t || isSub "virtual".data t then true
  else sf_terms.any (fun term => isSub term t)

/-- The search blob of filtering.score_relevance: the space-join of title,
description, tags, venue text and organizer name (each `or ""`, which on
strings is the identity). -/
def relevanceBlob (event : Event) : Str :=
  List.intercalate " ".data
    [event.title, event.description.getD [], List.intercalate " ".data event.tags,
      event.venue.raw.getD [], event.organizer.name.getD []]

/-- filtering.score_relevance: the heuristic relevance strategy.  The score
is `len(hits) + len(title_hits) * 1.5` (1.5 being exactly 3/2, the float
arithmetic is exact) and the matched keywords are the blob hits.  Python
mutates and returns the event; here the updated event is returned. -/
def score_relevance (event : Event) (keywords : List Str) : Event :=
  let hits := keyword_hits (relevanceBlob event) keywords
  let title_hits := keyword_hits event.title keywords
  { event with
    relevance_score := (hits.length : ℚ) + (title_hits.length : ℚ) * (3 / 2),
    matched_keywords := hits }

/-! ### src/luma_scrape_agent.py — _extract_json_from_text

The function scans the response text for a fenced code block
(the regex to the effect of three backticks, an optional word json, blanks,
a brace-delimited group matched lazily, blanks and three closing backticks)
and, failing that or failing to parse it, for a bare brace-delimited span
(the regex taking the leftmost opening brace through the last closing
brace).  `json.loads` is an external library call, modelled by the oracle
`jparse` returning the decoded verdict object or `none` on a decode error. -/

/-- Opening brace character (written by code to keep braces out of string
literals). -/
def braceOpen : Char := Char.ofNat 123

/-- Closing brace character. -/
def braceClose : Char := Char.ofNat 125

/-- Three backticks, the fence of a markdown code block. -/
def fenceMarks : Str := [Char.ofNat 96, Char.ofNat 96, Char.ofNat 96]

/-- Lazy body of the fenced group: the shortest run of characters up to a
closing brace that is followed by optional whitespace and a closing fence.
Returns the body (without the braces) of the group. -/
def fencedBody : Str → Option Str
  | [] => none
  | x :: xs =>
    if x = braceClose && fenceMarks.isPrefixOf (xs.dropWhile isPySpace) then some []
    else match fencedBody xs with
         | some b => some (x :: b)
         | none => none

/-- Attempt the fenced-block regex at the current position, after the three
backticks have been consumed: optionally the literal `json`, then
whitespace, then the lazily matched brace group. -/
def fencedAfterMarks (l : Str) : Option Str :=
  let attempt : Str → Option Str := fun m =>
    let m' := m.dropWhile isPySpace
    match m' with
    | c :: body =>
      if c = braceOpen then
        match fencedBody body with
        | some b => some (braceOpen :: b ++ [braceClose])
        | none => none
      else none
    | [] => none
  if "json".data.isPrefixOf l then
    match attempt (l.drop 4) with
    | some r => some r
    | none => attempt l
  else attempt l

/-- One position of the `re.search` scan for the fenced-block regex:
match here or advance one character.  The fuel is the remaining scan
length (instantiated with the text length, which suffices since each
step consumes at least one character). -/
def fencedScanF : Nat → Str → Option Str
  | 0, _ => none
  | _ + 1, [] => none
  | n + 1, c :: rest =>
    if c = Char.ofNat 96 && fenceMarks.isPrefixOf (c :: rest) then
      match fencedAfterMarks (rest.drop 2) with
      | some r => some r
      | none => fencedScanF n rest
    else fencedScanF n rest

/-- The candidate string of the fenced-block regex, if the text has a match. -/
def fencedCandidate (text : Str) : Option Str := fencedScanF text.length text

/-- The candidate of the bare regex: from the leftmost opening brace through
the last closing brace after it, if any. -/
def bareCandidate (text : Str) : Option Str :=
  let fromBrace := text.dropWhile (· ≠ braceOpen)
  match fromBrace with
  | [] => none
  | _ :: _ =>
    let upToClose := (fromBrace.reverse.dropWhile (· ≠ braceClose)).reverse
    match upToClose with
    | [] => none
    | _ :: _ => some upToClose

/-- The JSON object decoded from a classification/extraction response: a
Python dict whose keys, when present, overwrite the defaults.  Fields the
pipeline never reads are not carried. -/
structure ParsedRel where
  is_relevant : Option Bool := none
  relevance_score : Option ℚ := none
  reason : Option Str := none
  matched_topics : Option (List Str) := none
deriving DecidableEq

/-- luma_scrape_agent._extract_json_from_text: try the fenced block first
(and on a decode failure fall through), then the bare brace span. -/
def extract_json_from_text (jparse : Str → Option ParsedRel) (text : Str) :
    Option ParsedRel :=
  let bare : Option ParsedRel :=
    match bareCandidate text with
    | some c => jparse c
    | none => none
  match fencedCandidate text with
  | some c =>
    match jparse c with
    | some o => some o
    | none => bare
  | none => bare

/-! ### src/luma_scrape_agent.py — _check_relevance_with_claude -/

/-- The relevance verdict dict built by `_check_relevance_with_claude`. -/
structure RelVerdict where
  is_relevant : Bool := false
  relevance_score : ℚ := 0
  reason : Str := []
  matched_topics : List Str := []
deriving DecidableEq

/-- The fail-closed default verdict the function starts from. -/
def defaultVerdict : RelVerdict := ⟨false, 0, [], []⟩

/-- Python `result.update(parsed)`: every key present in the decoded dict
overwrites the default. -/
def updateVerdict (base : RelVerdict) (p : ParsedRel) : RelVerdict :=
  { is_relevant := p.is_relevant.getD base.is_relevant,
    relevance_score := p.relevance_score.getD base.relevance_score,
    reason := p.reason.getD base.reason,
    matched_topics := p.matched_topics.getD base.matched_topics }

/-- luma_scrape_agent._check_relevance_with_claude, from the point the
completion call returns.  The call is an external collaborator: `apiText`
is its response text, or `none` when the call raised (the `except` branch).
On a missing or undecodable JSON object the default verdict is kept. -/
def check_relevance_with_claude (jparse : Str → Option ParsedRel)
    (apiText : Option Str) : RelVerdict :=
  match apiText with
  | none => defaultVerdict
  | some text =>
    match extract_json_from_text jparse text with
    | some p => updateVerdict defaultVerdict p
    | none => defaultVerdict

/-! ### src/luma_scrape_agent.py — the batch scheduler -/

/-- The extraction record dict (`ExtractedRecord` of the spec): the result
shape of `_extract_event_details`. -/
structure ExtractedRec where
  url : Str
  title : Str := []
  date_text : Str := []
  venue_text : Str := []
  organizer_text : Str := []
  description_text : Str := []
deriving DecidableEq

/-- The all-empty stub record for a URL (substituted on failure/timeout). -/
def stubRecord (url : Str) : ExtractedRec := ⟨url, [], [], [], [], []⟩

/-- Python `range(0, len(urls), bs)` slicing: the list cut into batches of
`bs` (fuel-driven; fuel `urls.length` suffices for `bs ≥ 1`). -/
def toBatchesF : Nat → Nat → List Str → List (List Str)
  | 0, _, l => if l.isEmpty then [] else [l]
  | _ + 1, _, [] => []
  | n + 1, bs, x :: xs => (x :: xs.take (bs - 1)) :: toBatchesF n bs (xs.drop (bs - 1))

/-- The batches `urls[i:i+bs]` for `i = 0, bs, 2*bs, …`. -/
def toBatches (bs : Nat) (urls : List Str) : List (List Str) :=
  toBatchesF urls.length bs urls

/-- One batch of `_extract_all_events_parallel`: on a batch-level timeout
every member is replaced by its stub; otherwise each member's gathered
outcome is used, an exception (`Except.error`) converted to the stub.
`outcome` is the oracle for the gathered per-item result of
`_extract_event_details` (which itself is fetch + LLM, both external). -/
def processBatch (outcome : Str → Except Unit ExtractedRec)
    (timedOut : Bool) (batch : List Str) : List ExtractedRec :=
  if timedOut then batch.map stubRecord
  else batch.map fun url =>
    match outcome url with
    | Except.error _ => stubRecord url
    | Except.ok r => r

/-- luma_scrape_agent._extract_all_events_parallel: process the batches in
order, concatenating per-batch results; `timedOut i` tells whether batch `i`
hit the aggregate batch timeout.  The function is total: no input makes it
raise. -/
def extract_all_events_parallel (outcome : Str → Except Unit ExtractedRec)
    (timedOut : Nat → Bool) (bs : Nat) (urls : List Str) : List ExtractedRec :=
  (((toBatches bs urls).enum).map fun p => processBatch outcome (timedOut p.1) p.2).flatten

/-! ### src/luma_scrape_agent.py — scrape_luma_events_with_agent

The entry point, from the point the extraction list is in hand (URL
collection and detail extraction are the oracles above).  The per-event
loop is embedded as `processOne`, whose `Except` error names the `continue`
that rejected the record, in the order the code tests them. -/

/-- Reasons the per-event loop skips a record, one per `continue`, in source
order: missing url, no title and no description, the relevance filter, the
date (recency) filter, the geography filter. -/
inductive Reject where
  | noUrl
  | emptyContent
  | notRelevant
  | notRecent
  | notGeo
deriving DecidableEq

/-- The parsed start time of a record: `parse_datetime_loose(date_text)` when
`date_text` is nonempty, else retried on the first 200 characters of the
description when that is nonempty. -/
def parsedStart (pd : Str → Option Int) (r : ExtractedRec) : Option Int :=
  let dt := if r.date_text.isEmpty then none else parse_datetime_loose pd r.date_text
  match dt with
  | some t => some t
  | none =>
    if r.description_text.isEmpty then none
    else parse_datetime_loose pd (r.description_text.take 200)

/-- The Event constructed by the loop body for one record and its verdict
(title falling back to the url, venue online flag from online/virtual
markers, organizer and description normalised to `None` when blank). -/
def assembleEvent (r : ExtractedRec) (relevance : RelVerdict)
    (dt : Option Int) : Event :=
  let title := pyStrip r.title
  let venue_raw := r.venue_text
  let orgName := pyStrip r.organizer_text
  let desc := pyStrip r.description_text
  { url := r.url,
    title := if title.isEmpty then r.url else title,
    start_at := dt,
    venue := { raw := some venue_raw,
               is_online := isSub "online".data (lowerStr venue_raw)
                 || isSub "virtual".data (lowerStr venue_raw) },
    organizer := { name := if orgName.isEmpty then none else some orgName },
    description := if desc.isEmpty then none else some desc,
    tags := relevance.matched_topics,
    relevance_score := relevance.relevance_score,
    matched_keywords := relevance.matched_topics,
    relevance_reason := relevance.reason }

/-- One iteration of the per-event loop of scrape_luma_events_with_agent
(source lines 716-782): the guards in source order — skip on empty url;
skip when title and description are both blank; the relevance filter
(`is_relevant` and score at least 0.5) FIRST; then the date filter, lenient
when no date was parsed; then the geography filter. -/
def processOne (pd : Str → Option Int) (now : Int) (days : Int)
    (region : Str) (sf_terms : List Str)
    (r : ExtractedRec) (relevance : RelVerdict) : Except Reject Event :=
  if r.url.isEmpty then Except.error Reject.noUrl
  else
    let title := pyStrip r.title
    let desc := pyStrip r.description_text
    if title.isEmpty && desc.isEmpty then Except.error Reject.emptyContent
    else
      let dt := parsedStart pd r
      let ev := assembleEvent r relevance dt
      if !relevance.is_relevant || relevance.relevance_score < 1 / 2 then
        Except.error Reject.notRelevant
      else if dt.isSome && !is_within_days dt days now then
        Except.error Reject.notRecent
      else if region = "sf_bay".data && !looks_like_sf_bay r.venue_text sf_terms then
        Except.error Reject.notGeo
      else Except.ok ev

/-- Comparison definition, written from the specification's words rather
than the source, for the ordering claim: the same guards with the stage
order the spec asserts — recency first, then geography, then relevance. -/
def processOneClaimedOrder (pd : Str → Option Int) (now : Int) (days : Int)
    (region : Str) (sf_terms : List Str)
    (r : ExtractedRec) (relevance : RelVerdict) : Except Reject Event :=
  if r.url.isEmpty then Except.error Reject.noUrl
  else
    let title := pyStrip r.title
    let desc := pyStrip r.description_text
    if title.isEmpty && desc.isEmpty then Except.error Reject.emptyContent
    else
      let dt := parsedStart pd r
      let ev := assembleEvent r relevance dt
      if dt.isSome && !is_within_days dt days now then
        Except.error Reject.notRecent
      else if region = "sf_bay".data && !looks_like_sf_bay r.venue_text sf_terms then
        Except.error Reject.notGeo
      else if !relevance.is_relevant || relevance.relevance_score < 1 / 2 then
        Except.error Reject.notRelevant
      else Except.ok ev

/-- luma_scrape_agent._check_relevance_all: the classification collaborator
is invoked once per extracted record — on every record, before any
filtering.  `rel` abstracts `_check_relevance_with_claude` composed with
the completion call. -/
def check_relevance_all (rel : ExtractedRec → RelVerdict)
    (events : List ExtractedRec) : List RelVerdict :=
  events.map rel

/-- Python `datetime.max` (9999-12-31 23:59:59) in seconds, the sort key
substituted for an unknown start time. -/
def datetimeMax : Int := 253402300799

/-- The sort key time of an event: its start time, `datetime.max` when
unknown. -/
def timeKey (e : Event) : Int := e.start_at.getD datetimeMax

/-- The order of `events.sort(key=lambda e: (-e.relevance_score, e.start_at
or datetime.max))`: higher score first; on equal scores, earlier (known)
start time first. -/
def keyLE (a b : Event) : Prop :=
  b.relevance_score < a.relevance_score ∨
    (a.relevance_score = b.relevance_score ∧ timeKey a ≤ timeKey b)

instance : DecidableRel keyLE := fun a b => by
  unfold keyLE; exact inferInstance

/-- Sort (source line 785, CPython's stable sort; a stable sort under a total
preorder is unique, and insertion sort as defined in Mathlib is stable) and
truncate to the top 7 (source lines 788-791). -/
def rankAndCap (events : List Event) : List Event :=
  (events.insertionSort keyLE).take 7

/-- scrape_luma_events_with_agent from the point the extraction results are
in hand: score every record, run the per-event filter loop, sort and cap.
The final `return events` of the source stands inside `if events:`, so when
no event survives, the function falls off its end and returns Python
`None` — modelled by the `Option`: `none` is the `None` return, `some l` the
list return. -/
def scrape_luma_events_with_agent (rel : ExtractedRec → RelVerdict)
    (pd : Str → Option Int) (now : Int) (days : Int)
    (region : Str) (sf_terms : List Str)
    (extracted_list : List ExtractedRec) : Option (List Event) :=
  let relevance_list := check_relevance_all rel extracted_list
  let events := (extracted_list.zip relevance_list).filterMap
    fun p => (processOne pd now days region sf_terms p.1 p.2).toOption
  let final := rankAndCap events
  if final.isEmpty then none else some final

/-! ### src/luma_scrape_agent.py — _extract_urls_from_text (discovery pass a)

The regex scans are embedded as left-to-right scanners over the character
list, advancing one character on a failed position and past the match on a
successful one (Python `re.findall` semantics: non-overlapping, leftmost).
Each takes fuel, instantiated with the text length (each step consumes at
least one character). -/

/-- The absolute-URL head `https?://(lu.ma|luma.com)/` of the item-URL
regexes: if one of the four concrete alternatives heads the list, the
remainder after it.  The four are mutually exclusive, so the regex
alternation order does not matter. -/
def matchUrlHead (l : Str) : Option Str :=
  if "https://lu.ma/".data.isPrefixOf l then some (l.drop 14)
  else if "http://lu.ma/".data.isPrefixOf l then some (l.drop 13)
  else if "https://luma.com/".data.isPrefixOf l then some (l.drop 17)
  else if "http://luma.com/".data.isPrefixOf l then some (l.drop 16)
  else none

/-- Pattern 1 of `_extract_urls_from_text`: all captures of the item-URL
regex over the text. -/
def scanUrlsF : Nat → Str → List Str
  | 0, _ => []
  | _ + 1, [] => []
  | n + 1, c :: rest =>
    match matchUrlHead (c :: rest) with
    | some tail =>
      let id := tail.takeWhile isUrlChar
      if id.isEmpty then scanUrlsF n rest
      else id :: scanUrlsF n (tail.drop id.length)
    | none => scanUrlsF n rest

/-- Pattern 1 captures. -/
def scanUrls (text : Str) : List Str := scanUrlsF text.length text

/-- Quote characters of the regexes (double or single quote). -/
def isQuote (c : Char) : Bool := c = '"' || c = '\''

/-- Pattern 2 of `_extract_urls_from_text`: captures of the quoted item-URL
regex (a quote, the URL head, the identifier, a quote). -/
def scanQuotedF : Nat → Str → List Str
  | 0, _ => []
  | _ + 1, [] => []
  | n + 1, c :: rest =>
    if isQuote c then
      match matchUrlHead rest with
      | some tail =>
        let id := tail.takeWhile isUrlChar
        match id, tail.drop id.length with
        | _ :: _, q :: rest2 =>
          if isQuote q then id :: scanQuotedF n rest2 else scanQuotedF n rest
        | _, _ => scanQuotedF n rest
      | none => scanQuotedF n rest
    else scanQuotedF n rest

/-- Pattern 2 captures. -/
def scanQuoted (text : Str) : List Str := scanQuotedF text.length text

/-- Pattern 3 of `_extract_urls_from_text`: captures of the href-attribute
regex (the literal `href=`, a quote, an optional slash, the identifier, a
quote). -/
def scanHrefF : Nat → Str → List Str
  | 0, _ => []
  | _ + 1, [] => []
  | n + 1, c :: rest =>
    if "href=".data.isPrefixOf (c :: rest) then
      match (c :: rest).drop 5 with
      | q :: l2 =>
        if isQuote q then
          let l3 := if l2.head? = some '/' then l2.drop 1 else l2
          let id := l3.takeWhile isUrlChar
          match id, l3.drop id.length with
          | _ :: _, q2 :: rest2 =>
            if isQuote q2 then id :: scanHrefF n rest2 else scanHrefF n rest
          | _, _ => scanHrefF n rest
        else scanHrefF n rest
      | [] => scanHrefF n rest
    else scanHrefF n rest

/-- Pattern 3 captures. -/
def scanHref (text : Str) : List Str := scanHrefF text.length text

/-- The excluded path-segment set of `_extract_urls_from_text` (the Python
set literal; its duplicate members are irrelevant to membership). -/
def excludedA : List Str :=
  ["sf", "ios", "android", "web", "about", "help", "privacy", "terms",
   "login", "signup", "explore", "discover", "events", "organizers",
   "venues", "contact", "blog", "jobs", "press", "api", "docs",
   "create", "event", "description", "slug", "url", "image", "info",
   "hero_image_mobile_url", "hero_image_desktop_url", "is_free",
   "virtual_info", "personal_user"].map String.data

/-- The regex `^[a-z_]+$` (snake_case structural-key shape), under
`re.match`: the whole identifier is lower-case letters and underscores. -/
def snakeShape (s : Str) : Bool :=
  !s.isEmpty && s.all fun c => isLowerAlpha c || c = '_'

/-- The regex `^[a-z]+[A-Z]` (camelCase structural-key shape), under
`re.match`: one or more lower-case letters then an upper-case letter. -/
def camelShape (s : Str) : Bool :=
  let run := s.takeWhile isLowerAlpha
  !run.isEmpty &&
    match (s.drop run.length).head? with
    | some u => isUpperAlpha u
    | none => false

/-- The non-item identifier heads (user profiles, calendars, organizations). -/
def nonEventHeads : List Str := ["usr-", "cal-", "org-"].map String.data

/-- The candidate-validity filter of `_extract_urls_from_text`, in source
order: not an excluded path segment (case-folded), not of a structural-key
shape, not a non-item head, length at least 4, and not a short (length
below 8) all-lower-case string unless it starts with `evt-`. -/
def validCandidateId (c : Str) : Bool :=
  !(lowerStr c ∈ excludedA) &&
  !(snakeShape c || camelShape c) &&
  !startsWithAny nonEventHeads c &&
  !(c.length < 4) &&
  !(pyIslower c && c.length < 8 && !startsWith "evt-".data c)

/-- Python `url_id.strip('/').split('/')[0].split('?')[0]`. -/
def pyCleanId (s : Str) : Str :=
  takeUntilChar '?' (takeUntilChar '/' (stripChar '/' s))

/-- The loop body of `_extract_urls_from_text`: clean the capture, apply the
validity filter, and produce the canonical URL. -/
def normalizeCandidate (urlId : Str) : Option Str :=
  let c := pyCleanId urlId
  if validCandidateId c then some ("https://lu.ma/".data ++ c) else none

/-- luma_scrape_agent._extract_urls_from_text: union of the three regex
passes (in list order: pattern 1 then 2 then 3), filtered and normalised,
deduplicated preserving first-seen order. -/
def extract_urls_from_text (text : Str) : List Str :=
  pyDedup ((scanUrls text ++ scanQuoted text ++ scanHref text).filterMap normalizeCandidate)

/-! ### src/luma_scrape_agent.py — discovery pass b (anchor href scan)

The BeautifulSoup pass over anchor `href` attributes (source lines
251-277), embedded per attribute value.  Faithful to the code as written:
inside the same pass the length check and the short-all-lower-case check
stand after a `continue` (source lines 269-275) and are unreachable, and
no structural-key-shape check is made, so none of the three is part of the
embedded behaviour; the candidate added is the absolutised href itself. -/

/-- Python `s.replace(pat, rep)` for a nonempty `pat` (leftmost,
non-overlapping, all occurrences), fuel-driven. -/
def pyReplaceF : Nat → Str → Str → Str → Str
  | 0, _, _, l => l
  | n + 1, pat, rep, l =>
    if pat.isPrefixOf l then rep ++ pyReplaceF n pat rep (l.drop pat.length)
    else
      match l with
      | [] => []
      | x :: xs => x :: pyReplaceF n pat rep xs

/-- Python `s.replace(pat, rep)`. -/
def pyReplace (pat rep l : Str) : Str := pyReplaceF l.length pat rep l

/-- The excluded set of the anchor pass (smaller than `excludedA`). -/
def excludedB : List Str :=
  ["sf", "ios", "android", "web", "about", "help", "privacy", "terms",
   "login", "signup", "explore", "discover", "events", "organizers",
   "venues", "contact", "blog", "jobs", "press", "api", "docs",
   "create", "event", "description", "slug", "url", "image", "info"].map String.data

/-- One anchor of discovery pass b: the candidate URL the pass adds for an
href attribute value, or `none` when the anchor is skipped. -/
def anchorHrefCandidate (href : Str) : Option Str :=
  if isSub "lu.ma".data href || isSub "luma.com".data href then
    let href1 :=
      if href.head? = some '/' then "https://lu.ma".data ++ href
      else if !startsWith "http".data href then "https://lu.ma/".data ++ href
      else href
    let href2 := pyReplace "luma.com".data "lu.ma".data href1
    if startsWith "https://lu.ma/".data href2 then
      let urlId := takeUntilChar '?' (takeUntilChar '/' (pyReplace "https://lu.ma/".data [] href2))
      if lowerStr urlId ∈ excludedB then none
      else if startsWithAny nonEventHeads urlId then none
      else some href2
    else none
  else none

/-! ### Lemmas about the batch scheduler -/

/-- The per-position contract of the scheduler: the record is the URL's stub
or the URL's own successful outcome. -/
def schedRel (outcome : Str → Except Unit ExtractedRec) (u : Str)
    (r : ExtractedRec) : Prop :=
  r = stubRecord u ∨ outcome u = Except.ok r

theorem processBatch_rel (outcome : Str → Except Unit ExtractedRec)
    (t : Bool) (batch : List Str) :
    List.Forall₂ (schedRel outcome) batch (processBatch outcome t batch) := by
  cases t with
  | false =>
    induction batch with
    | nil => exact List.Forall₂.nil
    | cons x xs ih =>
      refine List.Forall₂.cons ?_ ih
      unfold schedRel
      cases h : outcome x with
      | error e => left; simp [processBatch, h]
      | ok r => right; simp [processBatch, h]
  | true =>
    induction batch with
    | nil => exact List.Forall₂.nil
    | cons x xs ih => exact List.Forall₂.cons (Or.inl rfl) ih

theorem toBatchesF_flatten (bs : Nat) :
    ∀ (n : Nat) (l : List Str), l.length ≤ n → (toBatchesF n bs l).flatten = l := by
  intro n
  induction n with
  | zero =>
    intro l hl
    have : l = [] := List.eq_nil_of_length_eq_zero (Nat.le_zero.mp hl)
    subst this; rfl
  | succ n ih =>
    intro l hl
    cases l with
    | nil => rfl
    | cons x xs =>
      have hlen : (xs.drop (bs - 1)).length ≤ n := by
        have := List.length_drop (bs - 1) xs
        have hxs : xs.length ≤ n := by simpa using hl
        omega
      simp only [toBatchesF, List.flatten_cons, ih _ hlen]
      simp [List.take_append_drop]

theorem toBatches_flatten (bs : Nat) (urls : List Str) :
    (toBatches bs urls).flatten = urls :=
  toBatchesF_flatten bs urls.length urls le_rfl

theorem flatten_rel (outcome : Str → Except Unit ExtractedRec)
    (timedOut : Nat → Bool) (bls : List (Nat × List Str)) :
    List.Forall₂ (schedRel outcome) (bls.map Prod.snd).flatten
      ((bls.map fun p => processBatch outcome (timedOut p.1) p.2).flatten) := by
  induction bls with
  | nil => exact List.Forall₂.nil
  | cons b rest ih =>
    simp only [List.map_cons, List.flatten_cons]
    exact List.rel_append (processBatch_rel outcome (timedOut b.1) b.2) ih

theorem extract_all_rel (outcome : Str → Except Unit ExtractedRec)
    (timedOut : Nat → Bool) (bs : Nat) (urls : List Str) :
    List.Forall₂ (schedRel outcome) urls
      (extract_all_events_parallel outcome timedOut bs urls) := by
  have h := flatten_rel outcome timedOut (toBatches bs urls).enum
  rw [List.enum_map_snd, toBatches_flatten bs urls] at h
  exact h

/-! ### Lemmas about the string utilities -/

theorem isSub_infix_iff (pat s : Str) : isSub pat s = true ↔ pat <:+: s := by
  induction s with
  | nil => simp [isSub, List.infix_nil, List.isEmpty_iff]
  | cons x rest ih =>
    simp only [isSub, Bool.or_eq_true, ih, List.infix_cons_iff,
      List.isPrefixOf_iff_prefix]

theorem isSub_append_left (pat a b : Str) (h : isSub pat a = true) :
    isSub pat (a ++ b) = true := by
  rw [isSub_infix_iff] at h ⊢
  exact h.trans (List.infix_append [] a b)

theorem lowerStr_append (a b : Str) : lowerStr (a ++ b) = lowerStr a ++ lowerStr b :=
  List.map_append lowerChar a b

theorem mem_dedupFirstAux (x : Str) :
    ∀ (seen l : List Str), x ∈ dedupFirstAux seen l ↔ x ∈ l ∧ x ∉ seen := by
  intro seen l
  induction l generalizing seen with
  | nil => simp [dedupFirstAux]
  | cons y ys ih =>
    by_cases hy : y ∈ seen
    · by_cases hxy : x = y
      · subst hxy
        simp only [dedupFirstAux, if_pos hy, ih, List.mem_cons]
        tauto
      · simp only [dedupFirstAux, if_pos hy, ih, List.mem_cons]
        tauto
    · by_cases hxy : x = y
      · subst hxy
        simp only [dedupFirstAux, if_neg hy, ih, List.mem_cons]
        tauto
      · simp only [dedupFirstAux, if_neg hy, ih, List.mem_cons]
        tauto

theorem mem_pyDedup (x : Str) (l : List Str) : x ∈ pyDedup l ↔ x ∈ l := by
  simp [pyDedup, mem_dedupFirstAux]

theorem nodup_dedupFirstAux :
    ∀ (seen l : List Str), (dedupFirstAux seen l).Nodup := by
  intro seen l
  induction l generalizing seen with
  | nil => exact List.nodup_nil
  | cons y ys ih =>
    by_cases hy : y ∈ seen
    · simpa [dedupFirstAux, if_pos hy] using ih seen
    · have hrw : dedupFirstAux seen (y :: ys) = y :: dedupFirstAux (y :: seen) ys := by
        simp [dedupFirstAux, hy]
      rw [hrw]
      refine List.Nodup.cons ?_ (ih (y :: seen))
      intro hc
      exact ((mem_dedupFirstAux y (y :: seen) ys).mp hc).2 (List.mem_cons_self y seen)

theorem nodup_pyDedup (l : List Str) : (pyDedup l).Nodup := nodup_dedupFirstAux [] l

theorem pySortedStr_sorted (l : List Str) :
    List.Sorted (· ≤ ·) (pySortedStr l) :=
  List.sorted_insertionSort _ l

theorem pySortedStr_perm (l : List Str) : (pySortedStr l).Perm l :=
  List.perm_insertionSort _ l

theorem keyword_hits_sorted (text : Str) (kws : List Str) :
    List.Sorted (· ≤ ·) (keyword_hits text kws) :=
  pySortedStr_sorted _

theorem keyword_hits_nodup (text : Str) (kws : List Str) :
    (keyword_hits text kws).Nodup :=
  ((pySortedStr_perm _).nodup_iff).mpr (nodup_pyDedup _)

theorem mem_keyword_hits (k text : Str) (kws : List Str) :
    k ∈ keyword_hits text kws ↔ k ∈ kws ∧ k ≠ [] ∧ isSub k (lowerStr text) = true := by
  unfold keyword_hits
  rw [(pySortedStr_perm _).mem_iff, mem_pyDedup, List.mem_filter]
  simp [and_assoc, List.isEmpty_iff]

/-! ### Helper lemmas for single-keyword scoring -/

theorem keyword_hits_single_pos (k text : Str) (hk : k ≠ [])
    (h : isSub k (lowerStr text) = true) : keyword_hits text [k] = [k] := by
  have hke : k.isEmpty = false := by simpa [List.isEmpty_iff] using hk
  unfold keyword_hits pySortedStr pyDedup
  simp [List.filter, hke, h, dedupFirstAux, List.insertionSort, List.orderedInsert]

theorem keyword_hits_single_neg (k text : Str)
    (h : isSub k (lowerStr text) = false) : keyword_hits text [k] = [] := by
  unfold keyword_hits pySortedStr pyDedup
  simp [List.filter, h, dedupFirstAux, List.insertionSort]

theorem title_infix_blob (ev : Event) (k : Str)
    (h : isSub k (lowerStr ev.title) = true) :
    isSub k (lowerStr (relevanceBlob ev)) = true := by
  have hblob : relevanceBlob ev = ev.title ++
      (" ".data ++ (ev.description.getD [] ++ (" ".data ++ (List.intercalate " ".data ev.tags ++
        (" ".data ++ (ev.venue.raw.getD [] ++ (" ".data ++ ev.organizer.name.getD []))))))) := by
    simp [relevanceBlob, List.intercalate, List.intersperse, List.flatten, List.append_assoc]
  rw [hblob, lowerStr_append]
  exact isSub_append_left _ _ _ h

/-! ### Claim theorems -/

/-- C4 (amended): the heuristic relevance strategy counts case-insensitive
substring hits of the keywords over the blob built from title, description,
tags, venue and organizer text, and sets the matched topics to the sorted,
duplicate-free list of hit keywords; the score is blob hits plus 1.5 times
title hits, so — the title being part of the blob — a keyword hitting only
the title contributes exactly 2.5 times (not 1.5 times) what the same
keyword contributes hitting only the body. -/
theorem C4_heuristic_scoring_amended (ev : Event) (kws : List Str) :
    (score_relevance ev kws).matched_keywords = keyword_hits (relevanceBlob ev) kws ∧
    List.Sorted (· ≤ ·) ((score_relevance ev kws).matched_keywords) ∧
    ((score_relevance ev kws).matched_keywords).Nodup ∧
    (∀ k, k ∈ (score_relevance ev kws).matched_keywords ↔
      k ∈ kws ∧ k ≠ [] ∧ isSub k (lowerStr (relevanceBlob ev)) = true) ∧
    (score_relevance ev kws).relevance_score =
      ((keyword_hits (relevanceBlob ev) kws).length : ℚ) +
        ((keyword_hits ev.title kws).length : ℚ) * (3 / 2) ∧
    (∀ k, k ≠ [] → isSub k (lowerStr ev.title) = true →
      (score_relevance ev [k]).relevance_score = 5 / 2) ∧
    (∀ k, k ≠ [] → isSub k (lowerStr ev.title) = false →
      isSub k (lowerStr (relevanceBlob ev)) = true →
      (score_relevance ev [k]).relevance_score = 1) := by
  refine ⟨rfl, keyword_hits_sorted _ _, keyword_hits_nodup _ _,
    fun k => mem_keyword_hits k _ kws, rfl, ?_, ?_⟩
  · intro k hk ht
    have hb := title_infix_blob ev k ht
    simp only [score_relevance, keyword_hits_single_pos k _ hk hb,
      keyword_hits_single_pos k _ hk ht]
    norm_num
  · intro k hk ht hb
    simp only [score_relevance, keyword_hits_single_pos k _ hk hb,
      keyword_hits_single_neg k _ ht]
    norm_num

/-- An event whose single keyword occurs only in the title. -/
def evTitleHit : Event :=
  { url := "https://lu.ma/evt-a".data, title := "monitoring".data }

/-- An event whose single keyword occurs only in the description (the
body). -/
def evBodyHit : Event :=
  { url := "https://lu.ma/evt-b".data, title := "x".data,
    description := some "monitoring".data }

/-- C4 counterexample: with the one keyword `monitoring`, an event carrying
it only in the title scores 5/2 while one carrying it only in the body
scores 1 — the title-only contribution is 2.5 times the body-only one, not
the claimed 1.5 times. -/
theorem C4_title_weight_counterexample :
    (score_relevance evTitleHit ["monitoring".data]).relevance_score = 5 / 2 ∧
    (score_relevance evBodyHit ["monitoring".data]).relevance_score = 1 ∧
    ((5 : ℚ) / 2) ≠ (3 / 2) * 1 := by
  refine ⟨?_, ?_, by norm_num⟩
  · have h1 : keyword_hits (relevanceBlob evTitleHit) ["monitoring".data] =
        ["monitoring".data] := by decide
    have h2 : keyword_hits evTitleHit.title ["monitoring".data] =
        ["monitoring".data] := by decide
    simp only [score_relevance, h1, h2, List.length_cons, List.length_nil]
    norm_num
  · have h1 : keyword_hits (relevanceBlob evBodyHit) ["monitoring".data] =
        ["monitoring".data] := by decide
    have h2 : keyword_hits evBodyHit.title ["monitoring".data] = [] := by decide
    simp only [score_relevance, h1, h2, List.length_cons, List.length_nil]
    norm_num

/-- C5: for every list of N URLs and any per-item outcomes — successes,
failures and batch timeouts included — the batch scheduler returns exactly
N records; the record at each position is the stub for that position's URL
or that URL's own successful outcome, and a per-item exception always
yields the stub.  The scheduler is a total function: no input makes it
raise.  (`0 < bs` because Python `range` rejects a zero step; the pipeline
calls with batch size 2.) -/
theorem C5_scheduler_total (outcome : Str → Except Unit ExtractedRec)
    (timedOut : Nat → Bool) (bs : Nat) (urls : List Str) (_hbs : 0 < bs) :
    (extract_all_events_parallel outcome timedOut bs urls).length = urls.length ∧
    ∀ (i : Nat) (h1 : i < urls.length)
      (h2 : i < (extract_all_events_parallel outcome timedOut bs urls).length),
      ((extract_all_events_parallel outcome timedOut bs urls).get ⟨i, h2⟩ =
          stubRecord (urls.get ⟨i, h1⟩) ∨
        outcome (urls.get ⟨i, h1⟩) =
          Except.ok ((extract_all_events_parallel outcome timedOut bs urls).get ⟨i, h2⟩)) ∧
      (outcome (urls.get ⟨i, h1⟩) = Except.error () →
        (extract_all_events_parallel outcome timedOut bs urls).get ⟨i, h2⟩ =
          stubRecord (urls.get ⟨i, h1⟩)) := by
  have hrel := extract_all_rel outcome timedOut bs urls
  refine ⟨hrel.length_eq.symm, fun i h1 h2 => ?_⟩
  have hr := hrel.get h1 h2
  refine ⟨hr, fun herr => ?_⟩
  rcases hr with h | h
  · exact h
  · rw [herr] at h; exact absurd h (by simp)

/-- Concrete scheduler outcomes for the C5 witness: the second URL raises,
the rest extract. -/
def c5outcome : Str → Except Unit ExtractedRec := fun u =>
  if u = "https://lu.ma/evt-b".data then Except.error ()
  else Except.ok ⟨u, "T".data, [], [], [], []⟩

/-- Concrete URL list for the C5 witness. -/
def c5urls : List Str :=
  ["https://lu.ma/evt-a".data, "https://lu.ma/evt-b".data, "https://lu.ma/evt-c".data]

/-- Witness for C5 at batch size 2 with the second batch timing out. -/
theorem C5_scheduler_total_witness :
    (extract_all_events_parallel c5outcome (fun i => i == 1) 2 c5urls).length = c5urls.length ∧
    ∀ (i : Nat) (h1 : i < c5urls.length)
      (h2 : i < (extract_all_events_parallel c5outcome (fun i => i == 1) 2 c5urls).length),
      ((extract_all_events_parallel c5outcome (fun i => i == 1) 2 c5urls).get ⟨i, h2⟩ =
          stubRecord (c5urls.get ⟨i, h1⟩) ∨
        c5outcome (c5urls.get ⟨i, h1⟩) =
          Except.ok ((extract_all_events_parallel c5outcome (fun i => i == 1) 2 c5urls).get ⟨i, h2⟩)) ∧
      (c5outcome (c5urls.get ⟨i, h1⟩) = Except.error () →
        (extract_all_events_parallel c5outcome (fun i => i == 1) 2 c5urls).get ⟨i, h2⟩ =
          stubRecord (c5urls.get ⟨i, h1⟩)) :=
  C5_scheduler_total c5outcome (fun i => i == 1) 2 c5urls (by decide)

/-- C6: when the classification response text contains no parsable JSON
object — `_extract_json_from_text` finds neither a decodable fenced block
nor a decodable bare brace span — the relevance check returns the
fail-closed default verdict (`is_relevant = false`, score 0), and the same
default is returned when the completion call itself raises. -/
theorem C6_fail_closed_classifier (jparse : Str → Option ParsedRel) (text : Str)
    (h : extract_json_from_text jparse text = none) :
    check_relevance_with_claude jparse (some text) = defaultVerdict ∧
    check_relevance_with_claude jparse none = defaultVerdict := by
  constructor
  · simp [check_relevance_with_claude, h]
  · rfl

/-- Witness for C6: a decoder that always fails on a plain-prose response. -/
theorem C6_fail_closed_classifier_witness :
    check_relevance_with_claude (fun _ => none)
        (some "I cannot classify this event.".data) = defaultVerdict ∧
    check_relevance_with_claude (fun _ => none) none = defaultVerdict :=
  C6_fail_closed_classifier (fun _ => none) "I cannot classify this event.".data rfl

/-! ### Lemmas about the per-event filter chain -/

/-- The relevance guard of the loop passes. -/
def relPass (relevance : RelVerdict) : Prop :=
  relevance.is_relevant = true ∧ ¬ relevance.relevance_score < 1 / 2

/-- The recency guard of the loop passes (vacuous for an unparsed date). -/
def recencyPass (pd : Str → Option Int) (now days : Int) (r : ExtractedRec) : Prop :=
  ∀ t, parsedStart pd r = some t → is_within_days (some t) days now = true

/-- The geography guard of the loop passes. -/
def geoPass (region : Str) (terms : List Str) (r : ExtractedRec) : Prop :=
  region = "sf_bay".data → looks_like_sf_bay r.venue_text terms = true

theorem processOne_eq_ok_iff (pd : Str → Option Int) (now days : Int)
    (region : Str) (terms : List Str) (r : ExtractedRec) (relevance : RelVerdict)
    (ev : Event) :
    processOne pd now days region terms r relevance = Except.ok ev ↔
      r.url ≠ [] ∧
      (pyStrip r.title ≠ [] ∨ pyStrip r.description_text ≠ []) ∧
      relPass relevance ∧
      recencyPass pd now days r ∧
      geoPass region terms r ∧
      ev = assembleEvent r relevance (parsedStart pd r) := by
  unfold processOne relPass recencyPass geoPass
  dsimp only
  split_ifs with h0 h1 h2 h3 h4
  · rw [false_iff]
    rintro ⟨hurl, -⟩
    exact hurl (List.isEmpty_iff.mp h0)
  · rw [false_iff]
    rw [Bool.and_eq_true, List.isEmpty_iff, List.isEmpty_iff] at h1
    rintro ⟨-, hc, -⟩
    rcases hc with hc | hc
    · exact hc h1.1
    · exact hc h1.2
  · rw [false_iff]
    rw [Bool.or_eq_true, Bool.not_eq_true', decide_eq_true_eq] at h2
    rintro ⟨-, -, ⟨hrel, hsc⟩, -⟩
    rcases h2 with h | h
    · rw [hrel] at h; cases h
    · exact hsc h
  · rw [false_iff]
    rw [Bool.and_eq_true, Bool.not_eq_true'] at h3
    rintro ⟨-, -, -, hrec, -⟩
    rcases Option.isSome_iff_exists.mp h3.1 with ⟨t, ht⟩
    have := hrec t ht
    rw [ht] at h3
    rw [this] at h3
    cases h3.2
  · rw [false_iff]
    rw [Bool.and_eq_true, Bool.not_eq_true', decide_eq_true_eq] at h4
    rintro ⟨-, -, -, -, hgeo, -⟩
    rw [hgeo h4.1] at h4
    cases h4.2
  · rw [Except.ok.injEq]
    constructor
    · intro h
      refine ⟨?_, ?_, ?_, ?_, ?_, h.symm⟩
      · rw [List.isEmpty_iff] at h0; exact h0
      · rw [Bool.and_eq_true, not_and_or, Bool.not_eq_true, Bool.not_eq_true,
          List.isEmpty_eq_false, List.isEmpty_eq_false] at h1
        exact h1
      · rw [Bool.or_eq_true, not_or] at h2
        exact ⟨by simpa using h2.1, by simpa using h2.2⟩
      · intro t ht
        rw [Bool.and_eq_true, not_and_or, ht] at h3
        rcases h3 with h | h
        · simp at h
        · simpa using h
      · intro hreg
        rw [Bool.and_eq_true, not_and_or, decide_eq_true_eq] at h4
        rcases h4 with h | h
        · exact absurd hreg h
        · simpa using h
    · rintro ⟨-, -, -, -, -, rfl⟩; rfl

theorem processOne_notRelevant_of (pd : Str → Option Int) (now days : Int)
    (region : Str) (terms : List Str) (r : ExtractedRec) (relevance : RelVerdict)
    (hurl : r.url ≠ [])
    (hc : pyStrip r.title ≠ [] ∨ pyStrip r.description_text ≠ [])
    (hfail : ¬ relPass relevance) :
    processOne pd now days region terms r relevance = Except.error Reject.notRelevant := by
  have h0 : ¬ (r.url.isEmpty = true) := by simpa [List.isEmpty_iff] using hurl
  have h1 : ¬ (((pyStrip r.title).isEmpty && (pyStrip r.description_text).isEmpty) = true) := by
    rw [Bool.and_eq_true, List.isEmpty_iff, List.isEmpty_iff]
    rintro ⟨a, b⟩
    rcases hc with hc | hc
    · exact hc a
    · exact hc b
  have h2 : (!relevance.is_relevant || decide (relevance.relevance_score < 1 / 2)) = true := by
    unfold relPass at hfail
    push_neg at hfail
    rcases Bool.eq_false_or_eq_true relevance.is_relevant with hb | hb
    · simp only [hb, Bool.not_true, Bool.false_or, decide_eq_true_eq]
      exact hfail hb
    · simp [hb]
  unfold processOne
  dsimp only
  rw [if_neg h0, if_neg h1, if_pos h2]

theorem processOne_notRecent_of (pd : Str → Option Int) (now days : Int)
    (region : Str) (terms : List Str) (r : ExtractedRec) (relevance : RelVerdict)
    (hurl : r.url ≠ [])
    (hc : pyStrip r.title ≠ [] ∨ pyStrip r.description_text ≠ [])
    (hrel : relPass relevance) (t : Int) (ht : parsedStart pd r = some t)
    (hout : is_within_days (some t) days now = false) :
    processOne pd now days region terms r relevance = Except.error Reject.notRecent := by
  have h0 : ¬ (r.url.isEmpty = true) := by simpa [List.isEmpty_iff] using hurl
  have h1 : ¬ (((pyStrip r.title).isEmpty && (pyStrip r.description_text).isEmpty) = true) := by
    rw [Bool.and_eq_true, List.isEmpty_iff, List.isEmpty_iff]
    rintro ⟨a, b⟩
    rcases hc with hc | hc
    · exact hc a
    · exact hc b
  have h2 : ¬ ((!relevance.is_relevant || decide (relevance.relevance_score < 1 / 2)) = true) := by
    simp only [hrel.1, Bool.not_true, Bool.false_or, decide_eq_true_eq]
    exact hrel.2
  have h3 : ((parsedStart pd r).isSome && !is_within_days (parsedStart pd r) days now) = true := by
    rw [ht, hout]; rfl
  unfold processOne
  dsimp only
  rw [if_neg h0, if_neg h1, if_neg h2, if_pos h3]

theorem processOne_notGeo_of (pd : Str → Option Int) (now days : Int)
    (region : Str) (terms : List Str) (r : ExtractedRec) (relevance : RelVerdict)
    (hurl : r.url ≠ [])
    (hc : pyStrip r.title ≠ [] ∨ pyStrip r.description_text ≠ [])
    (hrel : relPass relevance) (hrec : recencyPass pd now days r)
    (hreg : region = "sf_bay".data)
    (hlook : looks_like_sf_bay r.venue_text terms = false) :
    processOne pd now days region terms r relevance = Except.error Reject.notGeo := by
  have h0 : ¬ (r.url.isEmpty = true) := by simpa [List.isEmpty_iff] using hurl
  have h1 : ¬ (((pyStrip r.title).isEmpty && (pyStrip r.description_text).isEmpty) = true) := by
    rw [Bool.and_eq_true, List.isEmpty_iff, List.isEmpty_iff]
    rintro ⟨a, b⟩
    rcases hc with hc | hc
    · exact hc a
    · exact hc b
  have h2 : ¬ ((!relevance.is_relevant || decide (relevance.relevance_score < 1 / 2)) = true) := by
    simp only [hrel.1, Bool.not_true, Bool.false_or, decide_eq_true_eq]
    exact hrel.2
  have h3 : ¬ (((parsedStart pd r).isSome && !is_within_days (parsedStart pd r) days now) = true) := by
    cases hdt : parsedStart pd r with
    | none => simp
    | some t => simp [hrec t hdt]
  have h4 : ((decide (region = "sf_bay".data)) && !looks_like_sf_bay r.venue_text terms) = true := by
    simp [hreg, hlook]
  unfold processOne
  dsimp only
  rw [if_neg h0, if_neg h1, if_neg h2, if_neg h3, if_pos h4]

/-! ### The ranking order -/

instance : IsTotal Event keyLE := by
  constructor
  intro a b
  rcases lt_trichotomy a.relevance_score b.relevance_score with h | h | h
  · exact Or.inr (Or.inl h)
  · rcases le_total (timeKey a) (timeKey b) with ht | ht
    · exact Or.inl (Or.inr ⟨h, ht⟩)
    · exact Or.inr (Or.inr ⟨h.symm, ht⟩)
  · exact Or.inl (Or.inl h)

instance : IsTrans Event keyLE := by
  constructor
  intro a b c hab hbc
  rcases hab with h1 | ⟨h1e, h1t⟩ <;> rcases hbc with h2 | ⟨h2e, h2t⟩
  · exact Or.inl (h2.trans h1)
  · exact Or.inl (by rw [← h2e]; exact h1)
  · exact Or.inl (by rw [h1e]; exact h2)
  · exact Or.inr ⟨h1e.trans h2e, h1t.trans h2t⟩

theorem except_toOption_eq_some {α β : Type} (x : Except α β) (b : β) :
    x.toOption = some b ↔ x = Except.ok b := by
  cases x <;> simp [Except.toOption]

/-- Events of a `some` result of the pipeline come from records accepted by
the per-event loop. -/
theorem mem_scrape_result (rel : ExtractedRec → RelVerdict)
    (pd : Str → Option Int) (now days : Int) (region : Str) (terms : List Str)
    (extracted : List ExtractedRec) (l : List Event)
    (hl : scrape_luma_events_with_agent rel pd now days region terms extracted = some l)
    (ev : Event) (hev : ev ∈ l) :
    ∃ r relevance, processOne pd now days region terms r relevance = Except.ok ev := by
  unfold scrape_luma_events_with_agent at hl
  dsimp only at hl
  split_ifs at hl with hemp
  rcases Option.some.injEq _ _ ▸ hl with rfl
  have hmem : ev ∈ (extracted.zip (check_relevance_all rel extracted)).filterMap
      (fun p => (processOne pd now days region terms p.1 p.2).toOption) := by
    have h1 : ev ∈ (((extracted.zip (check_relevance_all rel extracted)).filterMap
        (fun p => (processOne pd now days region terms p.1 p.2).toOption)).insertionSort keyLE) :=
      List.Sublist.mem hev (List.take_sublist 7 _)
    exact ((List.perm_insertionSort keyLE _).mem_iff).mp h1
  rcases List.mem_filterMap.mp hmem with ⟨p, _, hp⟩
  exact ⟨p.1, p.2, (except_toOption_eq_some _ _).mp hp⟩

/-- C10: a record whose stripped title and description are both empty — in
particular every all-empty stub — is rejected by the loop with the
`emptyContent` reason, before and regardless of its relevance verdict and
of the recency and geography tests; consequently every event of a returned
list has a nonempty title or a nonempty description. -/
theorem C10_empty_records_pre_filtered (pd : Str → Option Int) (now days : Int)
    (region : Str) (terms : List Str) (rel : ExtractedRec → RelVerdict)
    (extracted : List ExtractedRec) (r : ExtractedRec) (relevance : RelVerdict) :
    (r.url ≠ [] → pyStrip r.title = [] → pyStrip r.description_text = [] →
      processOne pd now days region terms r relevance = Except.error Reject.emptyContent) ∧
    (∀ url, pyStrip (stubRecord url).title = [] ∧
      pyStrip (stubRecord url).description_text = []) ∧
    (∀ l, scrape_luma_events_with_agent rel pd now days region terms extracted = some l →
      ∀ ev ∈ l, ev.title ≠ [] ∨ ev.description ≠ none) := by
  refine ⟨?_, fun url => ⟨rfl, rfl⟩, ?_⟩
  · intro hurl ht hd
    have h0 : ¬ (r.url.isEmpty = true) := by simpa [List.isEmpty_iff] using hurl
    have h1 : (((pyStrip r.title).isEmpty && (pyStrip r.description_text).isEmpty) = true) := by
      rw [Bool.and_eq_true, List.isEmpty_iff, List.isEmpty_iff]
      exact ⟨ht, hd⟩
    unfold processOne
    dsimp only
    rw [if_neg h0, if_pos h1]
  · intro l hl ev hev
    rcases mem_scrape_result rel pd now days region terms extracted l hl ev hev with
      ⟨r', relevance', hok⟩
    rcases (processOne_eq_ok_iff pd now days region terms r' relevance' ev).mp hok with
      ⟨-, hc, -, -, -, hev'⟩
    subst hev'
    unfold assembleEvent
    dsimp only
    rcases hc with hc | hc
    · left
      rw [if_neg (by simpa [List.isEmpty_iff] using hc)]
      exact hc
    · right
      rw [if_neg (by simpa [List.isEmpty_iff] using hc)]
      exact Option.some_ne_none _

/-- C7: inside the per-event chain — for a record with a url, content, a
passing relevance verdict and a passing geography test — the recency filter
keeps exactly the events whose parsed start time lies in the closed
interval from `now` to `now + days`; and an event whose date text could not
be parsed is not dropped by the recency filter: it is accepted despite the
missing date. -/
theorem C7_recency_window (pd : Str → Option Int) (now days : Int)
    (region : Str) (terms : List Str) (r : ExtractedRec) (relevance : RelVerdict)
    (hurl : r.url ≠ [])
    (hc : pyStrip r.title ≠ [] ∨ pyStrip r.description_text ≠ [])
    (hrel : relevance.is_relevant = true)
    (hscore : ¬ relevance.relevance_score < 1 / 2)
    (hgeo : region = "sf_bay".data → looks_like_sf_bay r.venue_text terms = true) :
    (∀ t, parsedStart pd r = some t →
      (processOne pd now days region terms r relevance =
          Except.ok (assembleEvent r relevance (parsedStart pd r)) ↔
        (now ≤ t ∧ t ≤ now + days * 86400))) ∧
    (parsedStart pd r = none →
      processOne pd now days region terms r relevance =
        Except.ok (assembleEvent r relevance (parsedStart pd r))) := by
  constructor
  · intro t ht
    rw [processOne_eq_ok_iff]
    constructor
    · rintro ⟨-, -, -, hrec, -, -⟩
      have := hrec t ht
      simpa [is_within_days, Bool.and_eq_true, decide_eq_true_eq] using this
    · intro hw
      refine ⟨hurl, hc, ⟨hrel, hscore⟩, ?_, hgeo, rfl⟩
      intro t' ht'
      rw [ht] at ht'
      rcases Option.some.injEq _ _ ▸ ht' with rfl
      simpa [is_within_days, Bool.and_eq_true, decide_eq_true_eq] using hw
  · intro hnone
    rw [processOne_eq_ok_iff]
    refine ⟨hurl, hc, ⟨hrel, hscore⟩, ?_, hgeo, rfl⟩
    intro t' ht'
    rw [hnone] at ht'
    cases ht'

/-- A relevant record whose date text does not parse, for the C7 witness. -/
def c7record : ExtractedRec :=
  ⟨"https://lu.ma/evt-w".data, "Agent observability meetup".data, [],
    "Online".data, [], []⟩

/-- A passing verdict with score 1, for the C7 and C1 witnesses. -/
def passVerdict : RelVerdict := ⟨true, 1, [], []⟩

/-- Witness for C7: a relevant online event with an unparsable date is kept. -/
theorem C7_recency_window_witness :
    (∀ t, parsedStart (fun _ => none) c7record = some t →
      (processOne (fun _ => none) 0 30 "sf_bay".data ["san francisco".data]
          c7record passVerdict =
          Except.ok (assembleEvent c7record passVerdict
            (parsedStart (fun _ => none) c7record)) ↔
        ((0 : Int) ≤ t ∧ t ≤ 0 + 30 * 86400))) ∧
    (parsedStart (fun _ => none) c7record = none →
      processOne (fun _ => none) 0 30 "sf_bay".data ["san francisco".data]
          c7record passVerdict =
        Except.ok (assembleEvent c7record passVerdict
          (parsedStart (fun _ => none) c7record))) :=
  C7_recency_window (fun _ => none) 0 30 "sf_bay".data ["san francisco".data]
    c7record passVerdict (by decide) (Or.inl (by decide)) rfl (by norm_num [passVerdict])
    (fun _ => by decide)

/-- C1 (amended): the per-event chain applies the relevance filter first,
then the recency filter, then the geography filter (the rejection reason of
a record is decided in that order), the surviving events then being ranked
and capped; and the relevance classifier is invoked on every extracted
record — `_check_relevance_all` maps it over the whole extraction list
before the filter loop — not only on recency/geography survivors. -/
theorem C1_filter_order_amended (pd : Str → Option Int) (now days : Int)
    (region : Str) (terms : List Str) (rel : ExtractedRec → RelVerdict)
    (extracted : List ExtractedRec) (r : ExtractedRec) (relevance : RelVerdict) :
    check_relevance_all rel extracted = extracted.map rel ∧
    (r.url ≠ [] → (pyStrip r.title ≠ [] ∨ pyStrip r.description_text ≠ []) →
      ((¬ relPass relevance →
          processOne pd now days region terms r relevance =
            Except.error Reject.notRelevant) ∧
        (relPass relevance → ∀ t, parsedStart pd r = some t →
          is_within_days (some t) days now = false →
          processOne pd now days region terms r relevance =
            Except.error Reject.notRecent) ∧
        (relPass relevance → recencyPass pd now days r → region = "sf_bay".data →
          looks_like_sf_bay r.venue_text terms = false →
          processOne pd now days region terms r relevance =
            Except.error Reject.notGeo) ∧
        (relPass relevance → recencyPass pd now days r → geoPass region terms r →
          processOne pd now days region terms r relevance =
            Except.ok (assembleEvent r relevance (parsedStart pd r))))) := by
  refine ⟨rfl, fun hurl hc => ⟨?_, ?_, ?_, ?_⟩⟩
  · intro h
    exact processOne_notRelevant_of pd now days region terms r relevance hurl hc h
  · intro hrel t ht hout
    exact processOne_notRecent_of pd now days region terms r relevance hurl hc hrel t ht hout
  · intro hrel hrec hreg hlook
    exact processOne_notGeo_of pd now days region terms r relevance hurl hc hrel hrec hreg hlook
  · intro hrel hrec hgeo
    exact (processOne_eq_ok_iff pd now days region terms r relevance _).mpr
      ⟨hurl, hc, hrel, hrec, hgeo, rfl⟩

/-- Witness for C1 (amended) at a concrete record and verdict. -/
theorem C1_filter_order_amended_witness :
    check_relevance_all (fun _ => passVerdict) [c7record] = [c7record].map (fun _ => passVerdict) ∧
    (c7record.url ≠ [] →
      (pyStrip c7record.title ≠ [] ∨ pyStrip c7record.description_text ≠ []) →
      ((¬ relPass passVerdict →
          processOne (fun _ => none) 0 30 "sf_bay".data ["san francisco".data]
            c7record passVerdict = Except.error Reject.notRelevant) ∧
        (relPass passVerdict → ∀ t, parsedStart (fun _ => none) c7record = some t →
          is_within_days (some t) 30 0 = false →
          processOne (fun _ => none) 0 30 "sf_bay".data ["san francisco".data]
            c7record passVerdict = Except.error Reject.notRecent) ∧
        (relPass passVerdict → recencyPass (fun _ => none) 0 30 c7record →
          "sf_bay".data = "sf_bay".data →
          looks_like_sf_bay c7record.venue_text ["san francisco".data] = false →
          processOne (fun _ => none) 0 30 "sf_bay".data ["san francisco".data]
            c7record passVerdict = Except.error Reject.notGeo) ∧
        (relPass passVerdict → recencyPass (fun _ => none) 0 30 c7record →
          geoPass "sf_bay".data ["san francisco".data] c7record →
          processOne (fun _ => none) 0 30 "sf_bay".data ["san francisco".data]
            c7record passVerdict =
            Except.ok (assembleEvent c7record passVerdict
              (parsedStart (fun _ => none) c7record))))) :=
  C1_filter_order_amended (fun _ => none) 0 30 "sf_bay".data
    ["san francisco".data] (fun _ => passVerdict) [c7record] c7record passVerdict

/-- The record of the C1 counterexample: relevant-looking content whose
parsed date lies far outside the 30-day window. -/
def c1record : ExtractedRec :=
  ⟨"https://lu.ma/evt-far".data, "AI agent observability summit".data,
    "far".data, "San Francisco".data, [], []⟩

/-- The date oracle of the C1 counterexample: the record's date text parses
to a time far beyond the window. -/
def c1pd : Str → Option Int := fun s => if s = "far".data then some 10000000 else none

/-- C1 counterexample: at a record whose parsed date lies outside the
window, the code rejects with the relevance reason when the verdict is
negative — the claimed order (recency first, as the comparison definition
`processOneClaimedOrder` does) would reject with the recency reason — and
flipping only the relevance verdict changes the outcome, so the relevance
filter is evaluated on a record that did not pass the recency filter;
`_check_relevance_all` indeed scores it. -/
theorem C1_filter_order_counterexample :
    processOne c1pd 0 30 "sf_bay".data ["san francisco".data] c1record defaultVerdict =
      Except.error Reject.notRelevant ∧
    processOneClaimedOrder c1pd 0 30 "sf_bay".data ["san francisco".data] c1record
      defaultVerdict = Except.error Reject.notRecent ∧
    is_within_days (parsedStart c1pd c1record) 30 0 = false ∧
    check_relevance_all (fun _ => defaultVerdict) [c1record] = [defaultVerdict] ∧
    processOne c1pd 0 30 "sf_bay".data ["san francisco".data] c1record passVerdict =
      Except.error Reject.notRecent := by
  refine ⟨rfl, rfl, rfl, rfl, ?_⟩
  exact processOne_notRecent_of c1pd 0 30 "sf_bay".data ["san francisco".data]
    c1record passVerdict (by decide) (Or.inl (by decide))
    ⟨rfl, by norm_num [passVerdict]⟩ 10000000 rfl rfl

/-- C2 (code-bug evidence): when no event passes the filters — here a run
with no extracted records, and a run whose only record is not relevant —
the entry point returns Python `None` (the final `return events` stands
inside `if events:`), not the empty list the spec promises. -/
theorem C2_zero_result_returns_none :
    scrape_luma_events_with_agent (fun _ => defaultVerdict) (fun _ => none) 0 14
      "sf_bay".data ["san francisco".data] [] = none ∧
    scrape_luma_events_with_agent (fun _ => defaultVerdict) (fun _ => none) 0 14
      "sf_bay".data ["san francisco".data]
      [⟨"https://lu.ma/evt-q".data, "Quantum knitting circle".data, [], [], [], []⟩] =
      none :=
  ⟨rfl, rfl⟩

theorem rankAndCap_sorted (evts : List Event) :
    List.Sorted keyLE (rankAndCap evts) :=
  (List.sorted_insertionSort keyLE evts).sublist (List.take_sublist 7 _)

theorem rankAndCap_length (evts : List Event) :
    (rankAndCap evts).length = min 7 evts.length := by
  simp [rankAndCap, List.length_take, (List.perm_insertionSort keyLE evts).length_eq]

/-- C8: the final list is the top-7 prefix of the stable sort by descending
relevance score then ascending start time: it has `min 7 N` members (never
more than the cap 7), is sorted by that order, is a prefix of the sorted
permutation of the passing events (so when more than 7 pass it is exactly
the top 7 under the sort order), events of unknown start time sort last
among equal scores, and every `some` result of the pipeline is so ranked
and capped. -/
theorem C8_rank_and_cap (events : List Event)
    (rel : ExtractedRec → RelVerdict) (pd : Str → Option Int) (now days : Int)
    (region : Str) (terms : List Str) (extracted : List ExtractedRec) :
    (rankAndCap events).length = min 7 events.length ∧
    List.Sorted keyLE (rankAndCap events) ∧
    rankAndCap events <+: events.insertionSort keyLE ∧
    (events.insertionSort keyLE).Perm events ∧
    ((∀ e ∈ events, ∀ t, e.start_at = some t → t < datetimeMax) →
      ∀ (i j : Nat) (hi : i < (rankAndCap events).length)
        (hj : j < (rankAndCap events).length), i < j →
        ((rankAndCap events).get ⟨i, hi⟩).relevance_score =
          ((rankAndCap events).get ⟨j, hj⟩).relevance_score →
        ((rankAndCap events).get ⟨i, hi⟩).start_at = none →
        ((rankAndCap events).get ⟨j, hj⟩).start_at = none) ∧
    (∀ l, scrape_luma_events_with_agent rel pd now days region terms extracted = some l →
      l.length ≤ 7 ∧ List.Sorted keyLE l) := by
  refine ⟨rankAndCap_length events, rankAndCap_sorted events,
    ⟨_, List.take_append_drop 7 _⟩, List.perm_insertionSort keyLE events, ?_, ?_⟩
  · intro hbound i j hi hj hij hsc hnone
    have hkey : keyLE ((rankAndCap events).get ⟨i, hi⟩) ((rankAndCap events).get ⟨j, hj⟩) :=
      (List.pairwise_iff_get.mp (rankAndCap_sorted events)) ⟨i, hi⟩ ⟨j, hj⟩ hij
    rcases hkey with h | ⟨-, ht⟩
    · rw [hsc] at h
      exact absurd h (lt_irrefl _)
    · cases hj' : ((rankAndCap events).get ⟨j, hj⟩).start_at with
      | none => rfl
      | some t =>
        exfalso
        have hmem : (rankAndCap events).get ⟨j, hj⟩ ∈ events :=
          ((List.perm_insertionSort keyLE events).mem_iff).mp
            (List.Sublist.mem (List.get_mem _ j hj) (List.take_sublist 7 _))
        have htlt := hbound _ hmem t hj'
        rw [timeKey, timeKey, hnone, hj'] at ht
        simp only [Option.getD] at ht
        omega
  · intro l hl
    unfold scrape_luma_events_with_agent at hl
    dsimp only at hl
    split_ifs at hl with hemp
    rcases Option.some.injEq _ _ ▸ hl with rfl
    constructor
    · rw [rankAndCap_length]
      exact Nat.min_le_left _ _
    · exact rankAndCap_sorted _

/-- C3 (code-bug evidence): the anchor-href discovery pass emits the
candidate for the anchor `href` value https://lu.ma/abc although its
identifier `abc` is shorter than the minimum length 4, is a short
all-lower-case string without the `evt-` item prefix, and matches the
snake_case structural-key shape — the shared candidate-validity filter
rejects it (`validCandidateId` is false, and the regex pass over the same
text emits nothing).  In the source the pass's minimum-length and
short-lower-case checks stand after a `continue` (lines 269-275) and never
run, and the pass makes no structural-key-shape check at all. -/
theorem C3_anchor_pass_missing_filter :
    anchorHrefCandidate "https://lu.ma/abc".data = some "https://lu.ma/abc".data ∧
    ("abc".data.length < 4 ∧ snakeShape "abc".data = true ∧
      pyIslower "abc".data = true ∧ startsWith "evt-".data "abc".data = false) ∧
    validCandidateId "abc".data = false ∧
    extract_urls_from_text "https://lu.ma/abc".data = [] := by
  decide

/-! ### Lemmas about the discovery regex scan (for the normalization claim) -/

theorem matchUrlHead_length (l tail : Str) (h : matchUrlHead l = some tail) :
    tail.length < l.length := by
  unfold matchUrlHead at h
  split_ifs at h with h1 h2 h3 h4 <;>
    rcases Option.some.injEq _ _ ▸ h with rfl
  · have hle := (List.isPrefixOf_iff_prefix.mp h1).length_le
    have hlen : ("https://lu.ma/".data).length = 14 := rfl
    rw [hlen] at hle
    rw [List.length_drop]
    omega
  · have hle := (List.isPrefixOf_iff_prefix.mp h2).length_le
    have hlen : ("http://lu.ma/".data).length = 13 := rfl
    rw [hlen] at hle
    rw [List.length_drop]
    omega
  · have hle := (List.isPrefixOf_iff_prefix.mp h3).length_le
    have hlen : ("https://luma.com/".data).length = 17 := rfl
    rw [hlen] at hle
    rw [List.length_drop]
    omega
  · have hle := (List.isPrefixOf_iff_prefix.mp h4).length_le
    have hlen : ("http://luma.com/".data).length = 16 := rfl
    rw [hlen] at hle
    rw [List.length_drop]
    omega

theorem scanUrlsF_fuel_eq :
    ∀ (n : Nat) (l : Str) (m : Nat), l.length ≤ n → l.length ≤ m →
      scanUrlsF n l = scanUrlsF m l := by
  intro n
  induction n with
  | zero =>
    intro l m h1 _
    have hl : l = [] := List.eq_nil_of_length_eq_zero (Nat.le_zero.mp h1)
    subst hl
    cases m <;> rfl
  | succ n ih =>
    intro l m hn hm
    cases l with
    | nil => cases m <;> rfl
    | cons c rest =>
      cases m with
      | zero => simp at hm
      | succ m' =>
        have hrestn : rest.length ≤ n := by simpa using hn
        have hrestm : rest.length ≤ m' := by simpa using hm
        show scanUrlsF (n + 1) (c :: rest) = scanUrlsF (m' + 1) (c :: rest)
        simp only [scanUrlsF]
        cases hmh : matchUrlHead (c :: rest) with
        | none => exact ih rest m' hrestn hrestm
        | some tail =>
          have htail : tail.length < rest.length + 1 :=
            matchUrlHead_length _ _ hmh
          by_cases hid : (tail.takeWhile isUrlChar).isEmpty
          · simp only [hid, if_pos]
            exact ih rest m' hrestn hrestm
          · simp only [hid, Bool.false_eq_true, if_false]
            have hd : (tail.drop (tail.takeWhile isUrlChar).length).length ≤ rest.length := by
              rw [List.length_drop]
              omega
            rw [ih (tail.drop (tail.takeWhile isUrlChar).length) m'
              (le_trans hd hrestn) (le_trans hd hrestm)]

theorem scanUrlsF_eq_scanUrls (n : Nat) (l : Str) (h : l.length ≤ n) :
    scanUrlsF n l = scanUrls l :=
  scanUrlsF_fuel_eq n l l.length h le_rfl

theorem scanUrls_cons_none (c : Char) (rest : Str)
    (h : matchUrlHead (c :: rest) = none) :
    scanUrls (c :: rest) = scanUrls rest := by
  show scanUrlsF (rest.length + 1) (c :: rest) = scanUrls rest
  simp only [scanUrlsF, h]
  rfl

theorem scanUrls_cons_some (c : Char) (rest tail : Str)
    (h : matchUrlHead (c :: rest) = some tail)
    (hne : ¬ (tail.takeWhile isUrlChar).isEmpty = true) :
    scanUrls (c :: rest) =
      tail.takeWhile isUrlChar ::
        scanUrls (tail.drop (tail.takeWhile isUrlChar).length) := by
  have htail : tail.length < rest.length + 1 := matchUrlHead_length _ _ h
  show scanUrlsF (rest.length + 1) (c :: rest) = _
  simp only [scanUrlsF, h, hne, if_neg, Bool.false_eq_true, if_false]
  rw [scanUrlsF_eq_scanUrls rest.length]
  rw [List.length_drop]
  omega

theorem matchUrlHead_cons_ne (x : Char) (l : Str) (h : x ≠ 'h') :
    matchUrlHead (x :: l) = none := by
  have h1 : List.isPrefixOf "https://lu.ma/".data (x :: l) = false := by
    show ('h' == x && List.isPrefixOf "ttps://lu.ma/".data l) = false
    rw [beq_eq_false_iff_ne.mpr (Ne.symm h), Bool.false_and]
  have h2 : List.isPrefixOf "http://lu.ma/".data (x :: l) = false := by
    show ('h' == x && List.isPrefixOf "ttp://lu.ma/".data l) = false
    rw [beq_eq_false_iff_ne.mpr (Ne.symm h), Bool.false_and]
  have h3 : List.isPrefixOf "https://luma.com/".data (x :: l) = false := by
    show ('h' == x && List.isPrefixOf "ttps://luma.com/".data l) = false
    rw [beq_eq_false_iff_ne.mpr (Ne.symm h), Bool.false_and]
  have h4 : List.isPrefixOf "http://luma.com/".data (x :: l) = false := by
    show ('h' == x && List.isPrefixOf "ttp://luma.com/".data l) = false
    rw [beq_eq_false_iff_ne.mpr (Ne.symm h), Bool.false_and]
  unfold matchUrlHead
  rw [if_neg (by simp [h1]), if_neg (by simp [h2]), if_neg (by simp [h3]),
    if_neg (by simp [h4])]

theorem matchUrlHead_luma (r : Str) :
    matchUrlHead ("https://lu.ma/".data ++ r) = some r := by
  unfold matchUrlHead
  rw [if_pos]
  · have h14 : 14 = "https://lu.ma/".data.length := rfl
    rw [h14, List.drop_left]
  · rw [List.isPrefixOf_iff_prefix]
    exact List.prefix_append _ _

theorem matchUrlHead_lumaCom (r : Str) :
    matchUrlHead ("https://luma.com/".data ++ r) = some r := by
  unfold matchUrlHead
  rw [if_neg (by simp [show List.isPrefixOf "https://lu.ma/".data
      ("https://luma.com/".data ++ r) = false from rfl]),
    if_neg (by simp [show List.isPrefixOf "http://lu.ma/".data
      ("https://luma.com/".data ++ r) = false from rfl]),
    if_pos]
  · have h17 : 17 = "https://luma.com/".data.length := rfl
    rw [h17, List.drop_left]
  · rw [List.isPrefixOf_iff_prefix]
    exact List.prefix_append _ _

theorem takeWhile_all_true (p : Char → Bool) (l : Str) (h : ∀ x ∈ l, p x = true) :
    l.takeWhile p = l := by
  induction l with
  | nil => rfl
  | cons x xs ih =>
    simp only [List.takeWhile, h x (List.mem_cons_self x xs)]
    rw [ih fun y hy => h y (List.mem_cons_of_mem x hy)]

theorem takeWhile_append_stop (p : Char → Bool) (a b : Str)
    (ha : ∀ x ∈ a, p x = true) (hb : ∀ x, b.head? = some x → p x = false) :
    (a ++ b).takeWhile p = a := by
  induction a with
  | nil =>
    cases b with
    | nil => rfl
    | cons y ys => simp [List.takeWhile, hb y rfl]
  | cons x xs ih =>
    simp only [List.cons_append, List.takeWhile, ha x (List.mem_cons_self x xs)]
    exact congrArg (x :: ·) (ih fun y hy => ha y (List.mem_cons_of_mem x hy))

theorem scanUrlsF_mem (n : Nat) :
    ∀ (l id : Str), id ∈ scanUrlsF n l →
      id ≠ [] ∧ ∀ x ∈ id, isUrlChar x = true := by
  induction n with
  | zero => intro l id h; cases h
  | succ n ih =>
    intro l id h
    cases l with
    | nil => cases h
    | cons c rest =>
      simp only [scanUrlsF] at h
      cases hmh : matchUrlHead (c :: rest) with
      | none => simp only [hmh] at h; exact ih rest id h
      | some tail =>
        simp only [hmh] at h
        by_cases hid : (tail.takeWhile isUrlChar).isEmpty
        · simp only [if_pos hid] at h
          exact ih rest id h
        · simp only [if_neg hid] at h
          rcases List.mem_cons.mp h with rfl | h
          · exact ⟨by simpa [List.isEmpty_iff] using hid,
              fun x hx => List.mem_takeWhile_imp hx⟩
          · exact ih _ id h

theorem scanQuotedF_mem (n : Nat) :
    ∀ (l id : Str), id ∈ scanQuotedF n l →
      id ≠ [] ∧ ∀ x ∈ id, isUrlChar x = true := by
  induction n with
  | zero => intro l id h; cases h
  | succ n ih =>
    intro l id h
    cases l with
    | nil => cases h
    | cons c rest =>
      simp only [scanQuotedF] at h
      by_cases hq : isQuote c
      · simp only [if_pos hq] at h
        cases hmh : matchUrlHead rest with
        | none => simp only [hmh] at h; exact ih rest id h
        | some tail =>
          simp only [hmh] at h
          cases hcap : tail.takeWhile isUrlChar with
          | nil => simp only [hcap] at h; exact ih rest id h
          | cons y ys =>
            simp only [hcap] at h
            cases hrem : tail.drop (y :: ys).length with
            | nil => simp only [hrem] at h; exact ih rest id h
            | cons q rest2 =>
              simp only [hrem] at h
              by_cases hq2 : isQuote q
              · simp only [if_pos hq2] at h
                rcases List.mem_cons.mp h with rfl | h
                · refine ⟨List.cons_ne_nil y ys, fun x hx => ?_⟩
                  rw [← hcap] at hx
                  exact List.mem_takeWhile_imp hx
                · exact ih rest2 id h
              · simp only [if_neg hq2] at h
                exact ih rest id h
      · simp only [if_neg hq] at h
        exact ih rest id h

theorem scanHrefF_mem (n : Nat) :
    ∀ (l id : Str), id ∈ scanHrefF n l →
      id ≠ [] ∧ ∀ x ∈ id, isUrlChar x = true := by
  induction n with
  | zero => intro l id h; cases h
  | succ n ih =>
    intro l id h
    cases l with
    | nil => cases h
    | cons c rest =>
      simp only [scanHrefF] at h
      by_cases hp : List.isPrefixOf "href=".data (c :: rest)
      · simp only [if_pos hp] at h
        cases hdrop : (c :: rest).drop 5 with
        | nil => simp only [hdrop] at h; exact ih rest id h
        | cons q l2 =>
          simp only [hdrop] at h
          by_cases hq : isQuote q
          · simp only [if_pos hq] at h
            cases hcap : (if l2.head? = some '/' then l2.drop 1 else l2).takeWhile isUrlChar with
            | nil => simp only [hcap] at h; exact ih rest id h
            | cons y ys =>
              simp only [hcap] at h
              cases hrem : (if l2.head? = some '/' then l2.drop 1 else l2).drop
                  (y :: ys).length with
              | nil => simp only [hrem] at h; exact ih rest id h
              | cons q2 rest2 =>
                simp only [hrem] at h
                by_cases hq2 : isQuote q2
                · simp only [if_pos hq2] at h
                  rcases List.mem_cons.mp h with rfl | h
                  · refine ⟨List.cons_ne_nil y ys, fun x hx => ?_⟩
                    rw [← hcap] at hx
                    exact List.mem_takeWhile_imp hx
                  · exact ih rest2 id h
                · simp only [if_neg hq2] at h
                  exact ih rest id h
          · simp only [if_neg hq] at h
            exact ih rest id h
      · simp only [if_neg hp] at h
        exact ih rest id h

theorem scanQuotedF_eq_nil (n : Nat) :
    ∀ l : Str, (∀ x ∈ l, isQuote x = false) → scanQuotedF n l = [] := by
  induction n with
  | zero => intro l _; rfl
  | succ n ih =>
    intro l hl
    cases l with
    | nil => rfl
    | cons c rest =>
      simp only [scanQuotedF, hl c (List.mem_cons_self c rest)]
      exact ih rest fun x hx => hl x (List.mem_cons_of_mem c hx)

theorem scanHrefF_eq_nil (n : Nat) :
    ∀ l : Str, '=' ∉ l → scanHrefF n l = [] := by
  induction n with
  | zero => intro l _; rfl
  | succ n ih =>
    intro l hl
    cases l with
    | nil => rfl
    | cons c rest =>
      have hp : ¬ (List.isPrefixOf "href=".data (c :: rest) = true) := by
        intro hp
        rcases List.isPrefixOf_iff_prefix.mp hp with ⟨t, ht⟩
        apply hl
        rw [← ht]
        exact List.mem_append_left t (by decide)
      simp only [scanHrefF, if_neg hp]
      exact ih rest fun hx => hl (List.mem_cons_of_mem c hx)

theorem scanUrls_append_no_h (j : Str) (l : Str) (hj : ∀ x ∈ j, x ≠ 'h') :
    scanUrls (j ++ l) = scanUrls l := by
  induction j with
  | nil => rfl
  | cons x xs ih =>
    rw [List.cons_append,
      scanUrls_cons_none x (xs ++ l)
        (matchUrlHead_cons_ne x _ (hj x (List.mem_cons_self x xs)))]
    exact ih fun y hy => hj y (List.mem_cons_of_mem x hy)

theorem isUrlChar_ne (x : Char) (c : Char) (h : isUrlChar x = true)
    (hc : isUrlChar c = false) : x ≠ c := by
  intro he
  rw [he, hc] at h
  cases h

theorem scanUrls_head_luma (c s : Str) (hc : c ≠ [])
    (hcall : ∀ x ∈ c, isUrlChar x = true)
    (hs : ∀ x, s.head? = some x → isUrlChar x = false) :
    scanUrls ("https://lu.ma/".data ++ (c ++ s)) = c :: scanUrls s := by
  have hcons : "https://lu.ma/".data ++ (c ++ s) =
      'h' :: ("ttps://lu.ma/".data ++ (c ++ s)) := rfl
  have hmh : matchUrlHead ('h' :: ("ttps://lu.ma/".data ++ (c ++ s))) = some (c ++ s) :=
    matchUrlHead_luma (c ++ s)
  have hcap : (c ++ s).takeWhile isUrlChar = c := takeWhile_append_stop _ c s hcall hs
  rw [hcons, scanUrls_cons_some _ _ _ hmh (by simp [hcap, List.isEmpty_iff, hc])]
  rw [hcap, List.drop_left]

theorem scanUrls_head_lumaCom (c s : Str) (hc : c ≠ [])
    (hcall : ∀ x ∈ c, isUrlChar x = true)
    (hs : ∀ x, s.head? = some x → isUrlChar x = false) :
    scanUrls ("https://luma.com/".data ++ (c ++ s)) = c :: scanUrls s := by
  have hcons : "https://luma.com/".data ++ (c ++ s) =
      'h' :: ("ttps://luma.com/".data ++ (c ++ s)) := rfl
  have hmh : matchUrlHead ('h' :: ("ttps://luma.com/".data ++ (c ++ s))) = some (c ++ s) :=
    matchUrlHead_lumaCom (c ++ s)
  have hcap : (c ++ s).takeWhile isUrlChar = c := takeWhile_append_stop _ c s hcall hs
  rw [hcons, scanUrls_cons_some _ _ _ hmh (by simp [hcap, List.isEmpty_iff, hc])]
  rw [hcap, List.drop_left]

theorem urlChar_no_quote (x : Char) (h : isUrlChar x = true) : isQuote x = false := by
  cases hq : isQuote x with
  | false => rfl
  | true =>
    exfalso
    have hx : x = '"' ∨ x = '\'' := by
      simpa [isQuote, Bool.or_eq_true, decide_eq_true_eq] using hq
    rcases hx with rfl | rfl
    · exact absurd h (by decide)
    · exact absurd h (by decide)

theorem scanQuoted_eq_nil (l : Str) (h : ∀ x ∈ l, isQuote x = false) :
    scanQuoted l = [] := scanQuotedF_eq_nil l.length l h

theorem scanHref_eq_nil (l : Str) (h : '=' ∉ l) :
    scanHref l = [] := scanHrefF_eq_nil l.length l h

theorem urlChar_ne_of_bad (x c : Char) (h : isUrlChar x = true)
    (hbad : isUrlChar c = false) : x ≠ c := by
  intro he
  rw [he, hbad] at h
  cases h

theorem dropWhile_eq_self_of_head (p : Char → Bool) (l : Str)
    (h : ∀ x, l.head? = some x → p x = false) : l.dropWhile p = l := by
  cases l with
  | nil => rfl
  | cons x xs => simp [List.dropWhile, h x rfl]

theorem dropWhile_eq_self_of_not_mem (ch : Char) (m : Str) (hm : ch ∉ m) :
    m.dropWhile (· = ch) = m := by
  apply dropWhile_eq_self_of_head
  intro x hx
  simp only [decide_eq_false_iff_not]
  intro he
  subst he
  apply hm
  cases m with
  | nil => cases hx
  | cons y ys =>
    rcases Option.some.injEq _ _ ▸ hx with rfl
    exact List.mem_cons_self _ _

theorem stripChar_eq_self (ch : Char) (l : Str) (h : ch ∉ l) : stripChar ch l = l := by
  unfold stripChar
  rw [dropWhile_eq_self_of_not_mem ch l h,
    dropWhile_eq_self_of_not_mem ch l.reverse (by simpa using h),
    List.reverse_reverse]

theorem takeUntilChar_eq_self (ch : Char) (l : Str) (h : ch ∉ l) :
    takeUntilChar ch l = l := by
  unfold takeUntilChar
  apply takeWhile_all_true
  intro x hx
  simp only [decide_eq_true_eq]
  intro he
  exact h (he ▸ hx)

theorem not_mem_of_urlChar (c : Str) (hall : ∀ x ∈ c, isUrlChar x = true)
    (ch : Char) (hbad : isUrlChar ch = false) : ch ∉ c := by
  intro hmem
  rw [hall ch hmem] at hbad
  cases hbad

theorem pyCleanId_of_urlChar (c : Str) (hall : ∀ x ∈ c, isUrlChar x = true) :
    pyCleanId c = c := by
  unfold pyCleanId
  rw [stripChar_eq_self '/' c (not_mem_of_urlChar c hall '/' (by decide)),
    takeUntilChar_eq_self '/' c (not_mem_of_urlChar c hall '/' (by decide)),
    takeUntilChar_eq_self '?' c (not_mem_of_urlChar c hall '?' (by decide))]

theorem normalizeCandidate_of_valid (c : Str)
    (hall : ∀ x ∈ c, isUrlChar x = true) (hvalid : validCandidateId c = true) :
    normalizeCandidate c = some ("https://lu.ma/".data ++ c) := by
  unfold normalizeCandidate
  rw [pyCleanId_of_urlChar c hall, if_pos hvalid]

theorem pyDedup_single (a : Str) : pyDedup [a] = [a] := by
  simp [pyDedup, dedupFirstAux]

theorem pyDedup_pair (a : Str) : pyDedup [a, a] = [a] := by
  simp [pyDedup, dedupFirstAux]

/-- Every output of the discovery extractor is the canonical base URL
followed by a nonempty identifier over the URL alphabet that passes the
candidate-validity filter. -/
theorem extract_output_shape (t u : Str) (hu : u ∈ extract_urls_from_text t) :
    ∃ c, u = "https://lu.ma/".data ++ c ∧ c ≠ [] ∧
      (∀ x ∈ c, isUrlChar x = true) ∧ validCandidateId c = true := by
  unfold extract_urls_from_text at hu
  rw [mem_pyDedup] at hu
  rcases List.mem_filterMap.mp hu with ⟨id, hid, hnorm⟩
  have hprops : id ≠ [] ∧ ∀ x ∈ id, isUrlChar x = true := by
    rcases List.mem_append.mp hid with hid2 | hid3
    · rcases List.mem_append.mp hid2 with hid4 | hid5
      · exact scanUrlsF_mem t.length t id hid4
      · exact scanQuotedF_mem t.length t id hid5
    · exact scanHrefF_mem t.length t id hid3
  unfold normalizeCandidate at hnorm
  rw [pyCleanId_of_urlChar id hprops.2] at hnorm
  by_cases hv : validCandidateId id = true
  · rw [if_pos hv] at hnorm
    rcases Option.some.injEq _ _ ▸ hnorm with rfl
    exact ⟨id, rfl, hprops.1, hprops.2, hv⟩
  · rw [if_neg hv] at hnorm
    cases hnorm

/-- Extraction applied to one canonical-plus-suffix text: the scan captures
exactly the identifier when the suffix starts outside the URL alphabet and
contains no quote, equal sign or letter h. -/
theorem extract_canonical_suffix (c s : Str) (hc : c ≠ [])
    (hall : ∀ x ∈ c, isUrlChar x = true) (hvalid : validCandidateId c = true)
    (hs : ∀ x, s.head? = some x → isUrlChar x = false)
    (hsq : ∀ x ∈ s, isQuote x = false) (hseq : '=' ∉ s)
    (hsh : ∀ x ∈ s, x ≠ 'h') :
    extract_urls_from_text ("https://lu.ma/".data ++ (c ++ s)) =
      ["https://lu.ma/".data ++ c] := by
  have hscan : scanUrls ("https://lu.ma/".data ++ (c ++ s)) = [c] := by
    rw [scanUrls_head_luma c s hc hall hs]
    rw [show s = s ++ [] from (List.append_nil s).symm, scanUrls_append_no_h s [] hsh]
    rfl
  have hlit : ∀ y ∈ "https://lu.ma/".data, isQuote y = false := by decide
  have hquote : ∀ x ∈ "https://lu.ma/".data ++ (c ++ s), isQuote x = false := by
    intro x hx
    rcases List.mem_append.mp hx with hx1 | hx1
    · exact hlit x hx1
    · rcases List.mem_append.mp hx1 with hx2 | hx2
      · exact urlChar_no_quote x (hall x hx2)
      · exact hsq x hx2
  have heq : '=' ∉ "https://lu.ma/".data ++ (c ++ s) := by
    intro hx
    rcases List.mem_append.mp hx with hx | hx
    · exact absurd hx (by decide)
    · rcases List.mem_append.mp hx with hx | hx
      · exact absurd (hall _ hx) (by decide)
      · exact hseq hx
  unfold extract_urls_from_text
  rw [hscan, scanQuoted_eq_nil _ hquote, scanHref_eq_nil _ heq]
  rw [List.append_nil, List.append_nil]
  simp only [List.filterMap, normalizeCandidate_of_valid c hall hvalid]
  exact pyDedup_single _

/-- The same for the luma.com host alias. -/
theorem extract_alias_suffix (c s : Str) (hc : c ≠ [])
    (hall : ∀ x ∈ c, isUrlChar x = true) (hvalid : validCandidateId c = true)
    (hs : ∀ x, s.head? = some x → isUrlChar x = false)
    (hsq : ∀ x ∈ s, isQuote x = false) (hseq : '=' ∉ s)
    (hsh : ∀ x ∈ s, x ≠ 'h') :
    extract_urls_from_text ("https://luma.com/".data ++ (c ++ s)) =
      ["https://lu.ma/".data ++ c] := by
  have hscan : scanUrls ("https://luma.com/".data ++ (c ++ s)) = [c] := by
    rw [scanUrls_head_lumaCom c s hc hall hs]
    rw [show s = s ++ [] from (List.append_nil s).symm, scanUrls_append_no_h s [] hsh]
    rfl
  have hlit : ∀ y ∈ "https://luma.com/".data, isQuote y = false := by decide
  have hquote : ∀ x ∈ "https://luma.com/".data ++ (c ++ s), isQuote x = false := by
    intro x hx
    rcases List.mem_append.mp hx with hx1 | hx1
    · exact hlit x hx1
    · rcases List.mem_append.mp hx1 with hx2 | hx2
      · exact urlChar_no_quote x (hall x hx2)
      · exact hsq x hx2
  have heq : '=' ∉ "https://luma.com/".data ++ (c ++ s) := by
    intro hx
    rcases List.mem_append.mp hx with hx | hx
    · exact absurd hx (by decide)
    · rcases List.mem_append.mp hx with hx | hx
      · exact absurd (hall _ hx) (by decide)
      · exact hseq hx
  unfold extract_urls_from_text
  rw [hscan, scanQuoted_eq_nil _ hquote, scanHref_eq_nil _ heq]
  rw [List.append_nil, List.append_nil]
  simp only [List.filterMap, normalizeCandidate_of_valid c hall hvalid]
  exact pyDedup_single _

theorem extract_idempotent (t u : Str) (hu : u ∈ extract_urls_from_text t) :
    extract_urls_from_text u = [u] := by
  rcases extract_output_shape t u hu with ⟨c, rfl, hc, hall, hvalid⟩
  have h := extract_canonical_suffix c [] hc hall hvalid
    (fun x hx => by cases hx) (fun x hx => by cases hx)
    (fun hx => by cases hx) (fun x hx => by cases hx)
  rw [List.append_nil] at h
  exact h

theorem head_cond_of (ch : Char) (s : Str) (hs : s.head? = some ch)
    (hch : isUrlChar ch = false) :
    ∀ x, s.head? = some x → isUrlChar x = false := by
  intro x hx
  rw [hs] at hx
  rcases Option.some.injEq _ _ ▸ hx with rfl
  exact hch

/-- C9 (amended): URL normalization is idempotent and identifies equivalent
URLs up to host alias, query string and trailing slash: running the
extractor on a text consisting of one of its own outputs returns exactly
that output, and for every valid identifier the plain, host-alias, queried
and trailing-slash spellings normalize to the same canonical URL, a text
holding two such spellings being deduplicated to that single entry in
first-seen order.  (Host case is excluded from the claim: a URL whose host
is cased differently is not matched at all — see the counterexample.) -/
theorem C9_normalization_amended (c : Str) (hc : c ≠ [])
    (hall : ∀ x ∈ c, isUrlChar x = true) (hvalid : validCandidateId c = true) :
    (∀ t u, u ∈ extract_urls_from_text t → extract_urls_from_text u = [u]) ∧
    extract_urls_from_text ("https://lu.ma/".data ++ c) =
      ["https://lu.ma/".data ++ c] ∧
    extract_urls_from_text ("https://luma.com/".data ++ c) =
      ["https://lu.ma/".data ++ c] ∧
    extract_urls_from_text ("https://lu.ma/".data ++ (c ++ "?utm".data)) =
      ["https://lu.ma/".data ++ c] ∧
    extract_urls_from_text ("https://lu.ma/".data ++ (c ++ "/".data)) =
      ["https://lu.ma/".data ++ c] ∧
    extract_urls_from_text ("https://lu.ma/".data ++
        (c ++ ("?utm ".data ++ ("https://luma.com/".data ++ (c ++ "/".data))))) =
      ["https://lu.ma/".data ++ c] := by
  refine ⟨extract_idempotent, ?_, ?_, ?_, ?_, ?_⟩
  · have h := extract_canonical_suffix c [] hc hall hvalid
      (fun x hx => by cases hx) (fun x hx => by cases hx)
      (fun hx => by cases hx) (fun x hx => by cases hx)
    rw [List.append_nil] at h
    exact h
  · have h := extract_alias_suffix c [] hc hall hvalid
      (fun x hx => by cases hx) (fun x hx => by cases hx)
      (fun hx => by cases hx) (fun x hx => by cases hx)
    rw [List.append_nil] at h
    exact h
  · exact extract_canonical_suffix c "?utm".data hc hall hvalid
      (head_cond_of '?' _ rfl (by decide)) (by decide) (by decide) (by decide)
  · exact extract_canonical_suffix c "/".data hc hall hvalid
      (head_cond_of '/' _ rfl (by decide)) (by decide) (by decide) (by decide)
  · have hscan : scanUrls ("https://lu.ma/".data ++
        (c ++ ("?utm ".data ++ ("https://luma.com/".data ++ (c ++ "/".data))))) =
        [c, c] := by
      rw [scanUrls_head_luma c
          ("?utm ".data ++ ("https://luma.com/".data ++ (c ++ "/".data))) hc hall
          (head_cond_of '?'
            ("?utm ".data ++ ("https://luma.com/".data ++ (c ++ "/".data))) rfl
            (by decide)),
        scanUrls_append_no_h "?utm ".data _ (by decide),
        scanUrls_head_lumaCom c "/".data hc hall
          (head_cond_of '/' "/".data rfl (by decide))]
      rfl
    have hqc : ∀ x ∈ c, isQuote x = false := fun x hx => urlChar_no_quote x (hall x hx)
    have hquote : ∀ x ∈ "https://lu.ma/".data ++
        (c ++ ("?utm ".data ++ ("https://luma.com/".data ++ (c ++ "/".data)))),
        isQuote x = false := by
      intro x hx
      simp only [List.mem_append] at hx
      rcases hx with h | h | h | h | h | h
      · revert h
        have : ∀ y ∈ "https://lu.ma/".data, isQuote y = false := by decide
        exact this x
      · exact hqc x h
      · revert h
        have : ∀ y ∈ "?utm ".data, isQuote y = false := by decide
        exact this x
      · revert h
        have : ∀ y ∈ "https://luma.com/".data, isQuote y = false := by decide
        exact this x
      · exact hqc x h
      · revert h
        have : ∀ y ∈ "/".data, isQuote y = false := by decide
        exact this x
    have heq : '=' ∉ "https://lu.ma/".data ++
        (c ++ ("?utm ".data ++ ("https://luma.com/".data ++ (c ++ "/".data)))) := by
      intro hx
      simp only [List.mem_append] at hx
      rcases hx with h | h | h | h | h | h
      · exact absurd h (by decide)
      · exact absurd (hall _ h) (by decide)
      · exact absurd h (by decide)
      · exact absurd h (by decide)
      · exact absurd (hall _ h) (by decide)
      · exact absurd h (by decide)
    unfold extract_urls_from_text
    rw [hscan, scanQuoted_eq_nil _ hquote, scanHref_eq_nil _ heq]
    rw [List.append_nil, List.append_nil]
    simp only [List.filterMap, normalizeCandidate_of_valid c hall hvalid]
    exact pyDedup_pair _

/-- Witness for C9 (amended) at the identifier evt-abc123. -/
theorem C9_normalization_amended_witness :
    (∀ t u, u ∈ extract_urls_from_text t → extract_urls_from_text u = [u]) ∧
    extract_urls_from_text ("https://lu.ma/".data ++ "evt-abc123".data) =
      ["https://lu.ma/".data ++ "evt-abc123".data] ∧
    extract_urls_from_text ("https://luma.com/".data ++ "evt-abc123".data) =
      ["https://lu.ma/".data ++ "evt-abc123".data] ∧
    extract_urls_from_text ("https://lu.ma/".data ++ ("evt-abc123".data ++ "?utm".data)) =
      ["https://lu.ma/".data ++ "evt-abc123".data] ∧
    extract_urls_from_text ("https://lu.ma/".data ++ ("evt-abc123".data ++ "/".data)) =
      ["https://lu.ma/".data ++ "evt-abc123".data] ∧
    extract_urls_from_text ("https://lu.ma/".data ++
        ("evt-abc123".data ++ ("?utm ".data ++
          ("https://luma.com/".data ++ ("evt-abc123".data ++ "/".data))))) =
      ["https://lu.ma/".data ++ "evt-abc123".data] :=
  C9_normalization_amended "evt-abc123".data (by decide) (by decide) (by decide)

/-- C9 counterexample: the extractor is case-sensitive in the host, so a
URL differing from a normalized one only in host case does not normalize to
the same canonical value — it yields no candidate at all, while the
lower-case spelling yields itself. -/
theorem C9_host_case_counterexample :
    extract_urls_from_text "https://lu.ma/evt-abc123".data =
      ["https://lu.ma/evt-abc123".data] ∧
    extract_urls_from_text "https://LU.MA/evt-abc123".data = [] := by
  decide

end TrackEvent
